import Mathlib

/-!
# Verification of the UCP stream receive engine (`src/ucp/stream/stream_recv.c`)

This file gives a shallow embedding of the stream receive engine and proves
the specification's claims about it.  The model is a single endpoint of a
worker; machine pointers are replaced by explicit values and the byte
contents of buffers are carried as `List Nat` ghost fields so that byte
conservation can be stated.  Functions are translated from the C source,
keeping their names; helpers that live outside the packaged sources
(`stream.h` flag helpers, the datatype-unpack layer, the feature-check
macro) are modelled from the specification and marked as such in their
doc comments.

`ucs_assert` is compiled out in release builds and is modelled as a no-op;
`ucs_fatal`, `ucs_assert_always` / `ucs_assertv_always`, and undefined
behaviour (a type-confused access to `match_q`) are modelled by the
distinguished result `Res.fatal`.
-/

namespace UcxStream

/-- UCS status codes used by the stream receive path. -/
inductive UcsStatus where
  | ok
  | inprogress
  | errNoProgress
  | errInvalidParam
  | errNoResource
  | errNoMemory
  | errCanceled
  | errMessageTruncated
  | errIo
  deriving DecidableEq, Repr

/-- `UCS_STATUS_IS_ERR`: every status except `UCS_OK` / `UCS_INPROGRESS`. -/
def UcsStatus.isErr : UcsStatus → Bool
  | .ok => false
  | .inprogress => false
  | _ => true

/-- Result of running a piece of engine code: either a value, or an aborted
execution (`ucs_fatal`, an always-on assertion failure, or undefined
behaviour such as reading a queue element at the wrong type). -/
inductive Res (α : Type) where
  | ok (a : α)
  | fatal
  deriving Repr, DecidableEq

/-- `ucs_status_ptr_t`: either an encoded status (`UCS_STATUS_PTR`; the
status `UCS_OK` encodes the NULL pointer) or a real pointer. -/
inductive StatusPtr (α : Type) where
  | status (st : UcsStatus)
  | ptr (a : α)
  deriving Repr, DecidableEq

/-- Datatype classes relevant to the stream path (`UCP_DATATYPE_*`). -/
inductive DtClass where
  | contig
  | iov
  | generic
  deriving DecidableEq, Repr

/-- A UCP datatype as seen by the stream path: contiguous with an element
size, an iov list whose entries have the given byte lengths, or a generic
(user-vtable) datatype with a given total unpack length. -/
inductive Datatype where
  | contig (elem_size : Nat)
  | iov (lens : List Nat)
  | generic (total : Nat)
  deriving DecidableEq, Repr

def Datatype.dtClass : Datatype → DtClass
  | .contig _ => .contig
  | .iov _ => .iov
  | .generic _ => .generic

/-- `UCP_DT_IS_CONTIG`. -/
def ucp_dt_is_contig : Datatype → Bool
  | .contig _ => true
  | _ => false

/-- `UCP_DT_IS_IOV`. -/
def ucp_dt_is_iov : Datatype → Bool
  | .iov _ => true
  | _ => false

/-- `ucp_contig_dt_elem_size`.  Modelled from the spec: extracts the element
size of a contiguous datatype.  For non-contiguous datatypes the C value is
unspecified bits and is never read; the model returns 1 there. -/
def ucp_contig_dt_elem_size : Datatype → Nat
  | .contig es => es
  | _ => 1

/-- `ucp_dt_iov_length(iov, count)`.  Modelled from the spec: total byte
length of the first `count` entries of the iov list. -/
def ucp_dt_iov_length (lens : List Nat) (count : Nat) : Nat :=
  ((lens.take count).map id).sum

/-- Byte sizes of the on-wire/in-memory headers (layout constants; their
concrete values are irrelevant to every claim, only the bookkeeping
arithmetic on `payload_offset` uses them). -/
def sizeof_am_data : Nat := 8

def sizeof_rdesc : Nat := 48

def worker_headroom_priv_size : Nat := 32

/-- `UCP_RECV_DESC_FLAG_UCT_DESC` as a dedicated boolean. -/
structure Rdesc where
  /-- unconsumed payload bytes (the C `length` field) -/
  length : Nat
  /-- byte distance from the descriptor header to the first unconsumed byte -/
  payload_offset : Nat
  /-- `UCP_RECV_DESC_FLAG_UCT_DESC`: buffer ownership came from the transport -/
  flag_uct_desc : Bool
  release_desc_offset : Nat
  /-- ghost: the actual unconsumed payload bytes -/
  payload : List Nat
  deriving DecidableEq, Repr

/-- `ucp_stream_rdesc_payload`: the unconsumed payload of a descriptor. -/
def ucp_stream_rdesc_payload (r : Rdesc) : List Nat := r.payload

/-- Advancing the plain fields of a descriptor by `k` consumed bytes
(the in-place branch of `ucp_stream_rdesc_advance`):
`length -= k; payload_offset += k`, and the ghost payload drops `k`. -/
def Rdesc.advance_fields (r : Rdesc) (k : Nat) : Rdesc :=
  { r with length := r.length - k,
           payload_offset := r.payload_offset + k,
           payload := r.payload.drop k }

/-- The datatype iterator state of a receive request (`ucp_datatype_iter_t`
fields used by the stream path). -/
structure DtIter where
  offset : Nat
  length : Nat
  dt_class : DtClass
  deriving DecidableEq, Repr

/-- A stream receive request (the fields of `ucp_request_t` used by the
stream receive path). -/
structure Request where
  /-- ghost identity of the request, for tracking completions -/
  id : Nat
  /-- `UCP_REQUEST_FLAG_STREAM_RECV_WAITALL` -/
  waitall : Bool
  /-- `UCP_REQUEST_FLAG_CALLBACK` -/
  has_cb : Bool
  /-- `req->recv.stream.elem_size` -/
  elem_size : Nat
  dt_iter : DtIter
  /-- Modelled from the spec: the outcome of the datatype unpack layer for
  this request's datatype (§4.2): `none` means every unpack succeeds (contig
  and iov cannot fail); `some e` means the generic user vtable fails
  fatally with `e`. -/
  unpack_err : Option UcsStatus
  deriving DecidableEq, Repr

/-- An element of the endpoint's `match_q`: either an unmatched receive
descriptor or a posted receive request (the C queue is untyped; the
`HAS_DATA` flag tells which kind is queued). -/
inductive MatchElem where
  | desc (r : Rdesc)
  | req (q : Request)
  deriving DecidableEq, Repr

def MatchElem.isDesc : MatchElem → Bool
  | .desc _ => true
  | .req _ => false

def MatchElem.isReq : MatchElem → Bool
  | .desc _ => false
  | .req _ => true

/-- A recorded request completion (ghost): request identity, completion
status, and the reported stream length. -/
structure Completion where
  reqId : Nat
  status : UcsStatus
  length : Nat
  deriving DecidableEq, Repr

/-- The per-endpoint stream state, plus ghost logs.
`hasData` is `UCP_EP_FLAG_STREAM_HAS_DATA`; `isQueued` is membership on the
worker's ready list; `epUsed` is `UCP_EP_FLAG_USED`. -/
structure StreamState where
  matchQ : List MatchElem
  hasData : Bool
  isQueued : Bool
  epUsed : Bool
  /-- ghost: allocator for fresh request identities -/
  nextId : Nat
  /-- ghost: concatenation of all inbound fragment payloads, in order -/
  inbound : List Nat
  /-- ghost: concatenation of all bytes unpacked into user buffers, in order -/
  delivered : List Nat
  /-- ghost: descriptors returned to their origin by `ucp_recv_desc_release` -/
  released : List Rdesc
  /-- ghost: completions of stream receive requests, in order -/
  completions : List Completion
  deriving DecidableEq, Repr

/-- The worker's context configuration, as far as the stream path reads it. -/
structure UcpContext where
  /-- `UCP_FEATURE_STREAM` present in `context->config.features` -/
  featureStream : Bool
  deriving DecidableEq, Repr

/-- `ucp_stream_ep_has_data` (stream.h).  Modelled from the spec: tests the
endpoint's `HAS_DATA` flag. -/
def ucp_stream_ep_has_data (s : StreamState) : Bool := s.hasData

/-- `ucp_stream_ep_is_queued` (stream.h).  Modelled from the spec: tests
membership on the worker's ready-endpoint list. -/
def ucp_stream_ep_is_queued (s : StreamState) : Bool := s.isQueued

/-- `ucp_stream_ep_enqueue` (stream.h).  Modelled from the spec: adds the
endpoint to the ready list and marks it queued. -/
def ucp_stream_ep_enqueue (s : StreamState) : StreamState :=
  { s with isQueued := true }

/-- `ucp_stream_ep_dequeue` (stream.h).  Modelled from the spec: removes the
endpoint from the ready list. -/
def ucp_stream_ep_dequeue (s : StreamState) : StreamState :=
  { s with isQueued := false }

/-- `ucp_recv_desc_release`.  Modelled from the spec: returns the
descriptor's buffer to its origin (pool or transport); the ghost log
records it. -/
def ucp_recv_desc_release (r : Rdesc) (s : StreamState) : StreamState :=
  { s with released := s.released ++ [r] }

/-- The data handle returned to the user by the zero-copy path: the word
immediately preceding the returned payload pointer (the `rdesc` field of
`ucp_stream_am_data_t`) together with the payload the pointer refers to. -/
structure LentData where
  /-- the descriptor self-reference stored one word before the payload -/
  rdesc : Rdesc
  /-- the payload bytes the returned pointer points at -/
  payload : List Nat
  deriving DecidableEq, Repr

/-- `ucp_stream_rdesc_from_data`: recover the descriptor from the word
immediately preceding the user's data pointer. -/
def ucp_stream_rdesc_from_data (d : LentData) : Rdesc := d.rdesc

/-- `ucp_stream_rdesc_dequeue`: pull the head descriptor off `match_q`;
if the queue became empty, clear `HAS_DATA` and, if the endpoint is on the
ready list, remove it.  Pulling from an empty or type-confused queue is
undefined behaviour (`Res.fatal`). -/
def ucp_stream_rdesc_dequeue (s : StreamState) : Res (Rdesc × StreamState) :=
  match s.matchQ with
  | .desc r :: rest =>
      .ok (r, { s with matchQ := rest,
                       hasData := if rest.isEmpty then false else s.hasData,
                       isQueued := if rest.isEmpty then false else s.isQueued })
  | _ => .fatal

/-- `ucp_stream_rdesc_get`: peek the head descriptor of `match_q`. -/
def ucp_stream_rdesc_get (s : StreamState) : Res Rdesc :=
  match s.matchQ with
  | .desc r :: _ => .ok r
  | _ => .fatal

/-- `ucp_stream_recv_data_nb_nolock`: the zero-copy receive.  The out
parameter `length` is threaded through explicitly: the returned `Nat` is its
value after the call. -/
def ucp_stream_recv_data_nb_nolock (s : StreamState) (length : Nat) :
    Res (StatusPtr LentData × Nat × StreamState) :=
  if !(ucp_stream_ep_has_data s) then
    .ok (.status .ok, length, s)
  else
    match ucp_stream_rdesc_dequeue s with
    | .fatal => .fatal
    | .ok (rdesc, s') =>
        -- *length = rdesc->length; am_data->rdesc = rdesc; return am_data + 1
        .ok (.ptr { rdesc := rdesc, payload := rdesc.payload }, rdesc.length, s')

/-- `UCP_CONTEXT_CHECK_FEATURE_FLAGS`.  Modelled from the spec: calls on an
endpoint whose worker lacks the `STREAM` feature return `INVALID_PARAM`. -/
def ucp_context_has_stream (ctx : UcpContext) : Bool := ctx.featureStream

/-- `ucp_stream_recv_data_nb`: the public zero-copy receive (feature gate,
then the nolock body under the conditional worker critical section). -/
def ucp_stream_recv_data_nb (ctx : UcpContext) (s : StreamState) (length : Nat) :
    Res (StatusPtr LentData × Nat × StreamState) :=
  if !(ucp_context_has_stream ctx) then
    .ok (.status .errInvalidParam, length, s)
  else
    ucp_stream_recv_data_nb_nolock s length

/-- `ucp_stream_rdesc_dequeue_and_release`: dequeue the head descriptor
(asserted to equal `rdesc`) and release it. -/
def ucp_stream_rdesc_dequeue_and_release (rdesc : Rdesc) (s : StreamState) :
    Res StreamState :=
  match ucp_stream_rdesc_dequeue s with
  | .fatal => .fatal
  | .ok (_, s') => .ok (ucp_recv_desc_release rdesc s')

/-- `ucp_stream_data_release`: the public release of a zero-copy data
pointer.  Note: the C function performs no feature check; it recovers the
descriptor from the word before the payload and releases it. -/
def ucp_stream_data_release (d : LentData) (s : StreamState) : StreamState :=
  ucp_recv_desc_release (ucp_stream_rdesc_from_data d) s

/-- `ucp_request_can_complete_stream_recv`. -/
def ucp_request_can_complete_stream_recv (req : Request) : Bool :=
  if req.dt_iter.offset == req.dt_iter.length then
    true
  else if req.waitall || (req.dt_iter.offset == 0) then
    false
  else if req.dt_iter.dt_class != DtClass.contig then
    true
  else
    (req.dt_iter.offset % req.elem_size) == 0

/-- `ucp_request_complete_stream_recv`: dequeue the request from the head of
`match_q` (undefined behaviour if the head is not a request) and complete it
with the given status, reporting `dt_iter.offset` as the received length. -/
def ucp_request_complete_stream_recv (req : Request) (s : StreamState)
    (status : UcsStatus) : Res StreamState :=
  match s.matchQ with
  | .req _ :: rest =>
      .ok { s with matchQ := rest,
                   completions := s.completions ++
                     [{ reqId := req.id, status := status,
                        length := req.dt_iter.offset }] }
  | _ => .fatal

/-- `ucp_request_recv_data_unpack` (ucp_request.inl).  Modelled from the
spec (§4.2): unpacks `valid_len` bytes of `rdata` into the request's buffer
at `offset`; contig is a straight copy, iov walks the scatter list, generic
invokes the user vtable which may fail fatally.  Returns the status and the
bytes written to the user buffer. -/
def ucp_request_recv_data_unpack (req : Request) (rdata : List Nat)
    (valid_len : Nat) (_offset : Nat) (_last : Bool) :
    UcsStatus × List Nat :=
  match req.unpack_err with
  | some e => if e.isErr then (e, []) else (.ok, rdata.take valid_len)
  | none => (.ok, rdata.take valid_len)

/-- Whether the datatype layer fails for this request (ghost helper). -/
def ucp_request_unpack_fails (req : Request) : Bool :=
  match req.unpack_err with
  | some e => e.isErr
  | none => false

/-- `ucp_stream_rdata_unpack`: clamp the fragment to the request's remaining
room, unpack, and advance the request's offset.  Returns the updated
request, the `ssize_t` result (`.ok valid_len` or a negative status), and
the bytes unpacked into the user buffer (ghost). -/
def ucp_stream_rdata_unpack (rdata : List Nat) (length : Nat)
    (dst_req : Request) : Request × Except UcsStatus Nat × List Nat :=
  let offset := dst_req.dt_iter.offset
  -- Truncated error is not actual for stream, need to adjust
  let vl := dst_req.dt_iter.length - offset
  let valid_len := if vl ≤ length then vl else length
  let last := if vl ≤ length then vl == length else !dst_req.waitall
  match ucp_request_recv_data_unpack dst_req rdata valid_len offset last with
  | (.ok, bytes) =>
      ({ dst_req with dt_iter.offset := offset + valid_len }, .ok valid_len, bytes)
  | (e, _) => (dst_req, .error e, [])

/-- `ucp_stream_rdesc_advance` applied to the queued head descriptor:
a negative unpack result is returned as a status; consuming the whole
descriptor dequeues and releases it; a partial consume adjusts the head
descriptor's fields in place. -/
def ucp_stream_rdesc_advance (rdesc : Rdesc) (offset : Except UcsStatus Nat)
    (s : StreamState) : Res (UcsStatus × StreamState) :=
  match offset with
  | .error e => .ok (e, s)
  | .ok k =>
      if k == rdesc.length then
        match ucp_stream_rdesc_dequeue_and_release rdesc s with
        | .fatal => .fatal
        | .ok s' => .ok (.ok, s')
      else
        match s.matchQ with
        | .desc r :: rest =>
            .ok (.ok, { s with matchQ := .desc (r.advance_fields k) :: rest })
        | _ => .fatal

/-- `ucp_stream_process_rdesc`: unpack the head descriptor's payload into a
request then advance the descriptor by the unpacked amount.  Returns the
status and the updated request. -/
def ucp_stream_process_rdesc (rdesc : Rdesc) (s : StreamState)
    (req : Request) : Res (UcsStatus × Request × StreamState) :=
  let u := ucp_stream_rdata_unpack (ucp_stream_rdesc_payload rdesc)
             rdesc.length req
  let s1 := { s with delivered := s.delivered ++ u.2.2 }
  match ucp_stream_rdesc_advance rdesc u.2.1 s1 with
  | .fatal => .fatal
  | .ok (st, s2) => .ok (st, u.1, s2)

/-- The request parameters (`ucp_request_param_t`) as read by the stream
receive path. -/
structure RequestParam where
  /-- `UCP_OP_ATTR_FIELD_DATATYPE` present in `op_attr_mask` -/
  field_datatype : Bool
  /-- `UCP_OP_ATTR_FLAG_NO_IMM_CMPL` present in `op_attr_mask` -/
  flag_no_imm_cmpl : Bool
  /-- `UCP_OP_ATTR_FLAG_FORCE_IMM_CMPL` present in `op_attr_mask` -/
  flag_force_imm_cmpl : Bool
  /-- `UCP_OP_ATTR_FIELD_CALLBACK` present in `op_attr_mask` -/
  field_callback : Bool
  datatype : Datatype
  /-- `UCP_STREAM_RECV_FLAG_WAITALL` present in `flags` -/
  flag_waitall : Bool
  /-- Modelled from the spec: outcome of the generic datatype's user vtable
  for this operation (§4.2); `none` for datatypes whose unpack cannot fail. -/
  unpack_err : Option UcsStatus
  deriving DecidableEq, Repr

/-- `ucp_request_param_datatype`: the datatype field if present, else a
contiguous byte datatype. -/
def ucp_request_param_datatype (param : RequestParam) : Datatype :=
  if param.field_datatype then param.datatype else .contig 1

/-- `ucp_request_param_flags`. -/
def ucp_request_param_flags_waitall (param : RequestParam) : Bool :=
  param.flag_waitall

/-- `ucp_datatype_iter_init_unpack`.  Modelled from the spec: initializes
the unpack iterator with offset 0 and the total byte length of the user
buffer (contig: `elem_size * count`; iov: total of the list; generic: the
datatype's total unpack length). -/
def ucp_datatype_iter_init_unpack (dt : Datatype) (count : Nat) : DtIter :=
  { offset := 0,
    length := match dt with
              | .contig es => es * count
              | .iov lens => ucp_dt_iov_length lens count
              | .generic total => total,
    dt_class := dt.dtClass }

/-- `ucp_stream_recv_request_init`: build a fresh stream receive request
from the call's parameters (the `ucs_status_t` result of the iterator init
is modelled as always `UCS_OK`).  Consumes a fresh ghost identity. -/
def ucp_stream_recv_request_init (s : StreamState) (count : Nat)
    (param : RequestParam) : Request × StreamState :=
  let datatype := ucp_request_param_datatype param
  ({ id := s.nextId,
     waitall := ucp_request_param_flags_waitall param,
     has_cb := param.field_callback,
     elem_size := ucp_contig_dt_elem_size datatype,
     dt_iter := ucp_datatype_iter_init_unpack datatype count,
     unpack_err := param.unpack_err },
   { s with nextId := s.nextId + 1 })

/-- `ucs_align_down`. -/
def ucs_align_down (n : Nat) (align : Nat) : Nat := n - n % align

/-- `ucp_datatype_iter_unpack_single` (the inplace fast path's unpack).
Modelled from the spec (§4.2): the inplace path only reaches it for contig
and iov datatypes, whose unpack is a plain copy and cannot fail; it copies
`recv_length` bytes of the source into the user buffer. -/
def ucp_datatype_iter_unpack_single (src : List Nat) (recv_length : Nat) :
    UcsStatus × List Nat :=
  (.ok, src.take recv_length)

/-- The `attr_mask` dispatch at the head of `ucp_stream_try_recv_inplace`
(`op_attr_mask & (UCP_OP_ATTR_FIELD_DATATYPE | UCP_OP_ATTR_FLAG_NO_IMM_CMPL)`):
`none` means "return NO_PROGRESS", otherwise the pair is
`(elem_size, recv_length)`. -/
def ucp_stream_recv_inplace_lengths (param : RequestParam) (count : Nat) :
    Option (Nat × Nat) :=
  -- attr_mask == 0 ⟺ neither flag; == UCP_OP_ATTR_FIELD_DATATYPE ⟺ only
  -- the datatype field; anything else has NO_IMM_CMPL set
  match param.flag_no_imm_cmpl, param.field_datatype with
  | false, false => some (1, count)
  | false, true =>
      if ucp_dt_is_contig param.datatype then
        some (ucp_contig_dt_elem_size param.datatype,
              ucp_contig_dt_elem_size param.datatype * count)
      else if ucp_dt_is_iov param.datatype then
        some (1, match param.datatype with
                 | .iov lens => ucp_dt_iov_length lens count
                 | _ => 0)
      else
        none
  | true, _ => none

/-- `ucp_stream_try_recv_inplace`: the allocation-free receive fast path. -/
def ucp_stream_try_recv_inplace (s : StreamState) (count : Nat)
    (length : Nat) (param : RequestParam) :
    Res (UcsStatus × Nat × StreamState) :=
  if !(ucp_stream_ep_has_data s) then
    .ok (.errNoProgress, length, s)
  else
    match ucp_stream_recv_inplace_lengths param count with
    | none => .ok (.errNoProgress, length, s)
    | some (elem_size, recv_length0) =>
        match ucp_stream_rdesc_get s with
        | .fatal => .fatal
        | .ok rdesc =>
            if rdesc.length < recv_length0 &&
               (ucp_request_param_flags_waitall param ||
                decide (rdesc.length < elem_size)) then
              .ok (.errNoProgress, length, s)
            else
              let recv_length := if rdesc.length < recv_length0 then
                                   ucs_align_down rdesc.length elem_size
                                 else recv_length0
              let u := ucp_datatype_iter_unpack_single
                         (ucp_stream_rdesc_payload rdesc) recv_length
              if u.1 != .ok then
                .ok (u.1, length, s)
              else
                let s1 := { s with delivered := s.delivered ++ u.2 }
                match ucp_stream_rdesc_advance rdesc (.ok recv_length) s1 with
                | .fatal => .fatal
                | .ok (st, s2) => .ok (st, recv_length, s2)

/-- The visible result of `ucp_stream_recv_nbx`: an encoded status pointer
(`UCS_STATUS_PTR`; `.ok` is the NULL / immediate-completion encoding) or a
pending request handle. -/
inductive NbxRet where
  | statusRet (st : UcsStatus)
  | pending (reqId : Nat)
  deriving DecidableEq, Repr

/-- Characterization of `ucp_stream_rdata_unpack` when the datatype layer
fails. -/
theorem ucp_stream_rdata_unpack_fails (rdata : List Nat) (length : Nat)
    (req : Request) (e : UcsStatus) (he : req.unpack_err = some e)
    (herr : e.isErr = true) :
    ucp_stream_rdata_unpack rdata length req = (req, .error e, []) := by
  unfold ucp_stream_rdata_unpack ucp_request_recv_data_unpack
  rw [he]
  cases e
  · cases herr
  · cases herr
  all_goals rfl

/-- Characterization of `ucp_stream_rdata_unpack` when the datatype layer
succeeds: it consumes `min remaining length` bytes and advances the
request's offset by that amount. -/
theorem ucp_stream_rdata_unpack_ok (rdata : List Nat) (length : Nat)
    (req : Request) (hf : ucp_request_unpack_fails req = false) :
    ucp_stream_rdata_unpack rdata length req =
      ({ req with dt_iter.offset := (req.dt_iter.offset +
           min (req.dt_iter.length - req.dt_iter.offset) length) },
       .ok (min (req.dt_iter.length - req.dt_iter.offset) length),
       rdata.take (min (req.dt_iter.length - req.dt_iter.offset) length)) := by
  unfold ucp_request_unpack_fails at hf
  unfold ucp_stream_rdata_unpack ucp_request_recv_data_unpack
  rcases he : req.unpack_err with _ | e
  · simp only [he, Nat.min_def]
  · simp only [he] at hf
    simp only [he, hf, Bool.false_eq_true, if_false, Nat.min_def]

/-- `ucp_stream_rdesc_get` succeeds exactly on a descriptor-headed queue. -/
theorem ucp_stream_rdesc_get_ok (s : StreamState) (r : Rdesc)
    (h : ucp_stream_rdesc_get s = .ok r) :
    ∃ rest, s.matchQ = .desc r :: rest := by
  unfold ucp_stream_rdesc_get at h
  rcases hq : s.matchQ with _ | ⟨e, rest⟩
  · rw [hq] at h; cases h
  · rcases e with r' | q
    · rw [hq] at h
      simp only [Res.ok.injEq] at h
      subst h
      exact ⟨rest, rfl⟩
    · rw [hq] at h; cases h

/-- `ucp_stream_process_rdesc` on a failing unpack: the error is returned,
request and endpoint unchanged. -/
theorem ucp_stream_process_rdesc_fails (rdesc : Rdesc) (s : StreamState)
    (req : Request) (e : UcsStatus) (he : req.unpack_err = some e)
    (herr : e.isErr = true) :
    ucp_stream_process_rdesc rdesc s req = .ok (e, req, s) := by
  unfold ucp_stream_process_rdesc
  rw [ucp_stream_rdata_unpack_fails _ _ _ e he herr]
  simp [ucp_stream_rdesc_advance]

/-- `ucp_stream_process_rdesc` on a successful unpack that consumes the
whole head descriptor: the descriptor is dequeued and released. -/
theorem ucp_stream_process_rdesc_full (rdesc : Rdesc) (s : StreamState)
    (req : Request) (rest : List MatchElem)
    (hq : s.matchQ = .desc rdesc :: rest)
    (hf : ucp_request_unpack_fails req = false)
    (hk : min (req.dt_iter.length - req.dt_iter.offset) rdesc.length =
          rdesc.length) :
    ucp_stream_process_rdesc rdesc s req =
      .ok (.ok,
           { req with dt_iter.offset := req.dt_iter.offset + rdesc.length },
           { s with matchQ := rest,
                    hasData := if rest.isEmpty then false else s.hasData,
                    isQueued := if rest.isEmpty then false else s.isQueued,
                    delivered := s.delivered ++ rdesc.payload.take rdesc.length,
                    released := s.released ++ [rdesc] }) := by
  unfold ucp_stream_process_rdesc
  rw [ucp_stream_rdata_unpack_ok _ _ _ hf]
  simp only [ucp_stream_rdesc_payload, hk]
  unfold ucp_stream_rdesc_advance ucp_stream_rdesc_dequeue_and_release
    ucp_stream_rdesc_dequeue ucp_recv_desc_release
  simp [hq]

/-- `ucp_stream_process_rdesc` on a successful unpack that consumes only
part of the head descriptor: the head descriptor is advanced in place and
the request is filled to its full length. -/
theorem ucp_stream_process_rdesc_midway (rdesc : Rdesc) (s : StreamState)
    (req : Request) (rest : List MatchElem)
    (hq : s.matchQ = .desc rdesc :: rest)
    (hf : ucp_request_unpack_fails req = false)
    (hk : min (req.dt_iter.length - req.dt_iter.offset) rdesc.length ≠
          rdesc.length) :
    ucp_stream_process_rdesc rdesc s req =
      .ok (.ok,
           { req with dt_iter.offset := (req.dt_iter.offset +
               (req.dt_iter.length - req.dt_iter.offset)) },
           { s with matchQ := (.desc (rdesc.advance_fields
                      (req.dt_iter.length - req.dt_iter.offset)) :: rest),
                    delivered := (s.delivered ++ rdesc.payload.take
                      (req.dt_iter.length - req.dt_iter.offset)) }) := by
  have hmin : min (req.dt_iter.length - req.dt_iter.offset) rdesc.length =
      req.dt_iter.length - req.dt_iter.offset := by omega
  unfold ucp_stream_process_rdesc
  rw [ucp_stream_rdata_unpack_ok _ _ _ hf]
  simp only [ucp_stream_rdesc_payload, hmin]
  unfold ucp_stream_rdesc_advance
  rw [hmin] at hk
  simp [hq, hk]

/-- The drain loop of `ucp_stream_recv_request`: while the request has room
and the endpoint has data, unpack the head descriptor into the request and
advance it; a generic datatype without `WAITALL` stops after one
descriptor.  Returns the final request or the unpack error. -/
def ucp_stream_recv_request_loop (req : Request) (s : StreamState) :
    Res (Except UcsStatus Request × StreamState) :=
  if hw : req.dt_iter.offset < req.dt_iter.length ∧ s.hasData = true then
    match hg : ucp_stream_rdesc_get s with
    | .fatal => .fatal
    | .ok rdesc =>
        match hp : ucp_stream_process_rdesc rdesc s req with
        | .fatal => .fatal
        | .ok (st, req2, s2) =>
            if h1 : st ≠ UcsStatus.ok then
              .ok (.error st, s2)
            else if req2.dt_iter.dt_class = DtClass.generic ∧
                    req2.waitall = false then
              .ok (.ok req2, s2)
            else
              ucp_stream_recv_request_loop req2 s2
  else
    .ok (.ok req, s)
termination_by (req.dt_iter.length - req.dt_iter.offset) + s.matchQ.length
decreasing_by
  obtain ⟨rest, hq⟩ := ucp_stream_rdesc_get_ok s rdesc hg
  rcases hfe : ucp_request_unpack_fails req with _ | _
  · rcases hks : decide (min (req.dt_iter.length - req.dt_iter.offset)
        rdesc.length = rdesc.length) with _ | _
    · have hk := of_decide_eq_false hks
      rw [ucp_stream_process_rdesc_midway rdesc s req rest hq hfe hk] at hp
      injection hp with hp'
      simp only [Prod.mk.injEq] at hp'
      obtain ⟨hst, hreq, hs⟩ := hp'
      rw [← hreq, ← hs, hq]
      simp only [List.length_cons]
      omega
    · have hk := of_decide_eq_true hks
      rw [ucp_stream_process_rdesc_full rdesc s req rest hq hfe hk] at hp
      injection hp with hp'
      simp only [Prod.mk.injEq] at hp'
      obtain ⟨hst, hreq, hs⟩ := hp'
      rw [← hreq, ← hs, hq]
      simp only [List.length_cons]
      omega
  · obtain ⟨e, he, herr⟩ : ∃ e, req.unpack_err = some e ∧ e.isErr = true := by
      unfold ucp_request_unpack_fails at hfe
      rcases h0 : req.unpack_err with _ | e0
      · rw [h0] at hfe; cases hfe
      · rw [h0] at hfe; exact ⟨e0, rfl, hfe⟩
    rw [ucp_stream_process_rdesc_fails rdesc s req e he herr] at hp
    injection hp with hp'
    simp only [Prod.mk.injEq] at hp'
    obtain ⟨hst, hreq, hs⟩ := hp'
    have hstok : st = UcsStatus.ok := not_ne_iff.mp h1
    rw [hstok] at hst
    rw [hst] at herr
    exact absurd herr (by decide)

/-- `ucp_request_complete_stream_recv` succeeds exactly on a request-headed
queue, removing the head and logging one completion. -/
theorem ucp_request_complete_stream_recv_ok (req : Request) (s : StreamState)
    (st : UcsStatus) (s2 : StreamState)
    (h : ucp_request_complete_stream_recv req s st = .ok s2) :
    ∃ q rest, s.matchQ = .req q :: rest ∧
      s2 = { s with matchQ := rest,
                    completions := (s.completions ++
                      [{ reqId := req.id, status := st,
                         length := req.dt_iter.offset }]) } := by
  unfold ucp_request_complete_stream_recv at h
  rcases hq : s.matchQ with _ | ⟨e, rest⟩ <;> rw [hq] at h
  · cases h
  · rcases e with r' | q
    · cases h
    · simp only [Res.ok.injEq] at h
      exact ⟨q, rest, rfl, h.symm⟩

/-- `ucp_stream_recv_request`: the tail of `ucp_stream_recv_nbx` once a
request has been allocated and initialized: drain arrived data into the
request, then either complete it immediately (`ucp_request_imm_cmpl_param`,
modelled from the spec as recording the completion and returning the
immediate-completion status pointer) or append it to `match_q` and return a
pending handle. -/
def ucp_stream_recv_request (req : Request) (s : StreamState) (length : Nat)
    (_param : RequestParam) : Res (NbxRet × Nat × StreamState) :=
  match ucp_stream_recv_request_loop req s with
  | .fatal => .fatal
  | .ok (.error e, s1) => .ok (.statusRet e, length, s1)
  | .ok (.ok req2, s1) =>
      if ucp_request_can_complete_stream_recv req2 then
        .ok (.statusRet .ok, req2.dt_iter.offset,
             { s1 with completions := (s1.completions ++
                 [{ reqId := req2.id, status := .ok,
                    length := req2.dt_iter.offset }]) })
      else
        -- ucs_assert(!ucp_stream_ep_has_data(ep_ext)) (debug)
        .ok (.pending req2.id, length,
             { s1 with matchQ := s1.matchQ ++ [.req req2] })

/-- `ucp_stream_recv_nbx`: feature gate, inplace fast path, `NO_RESOURCE`
on `FORCE_IMM_CMPL`, request allocation (`allocOk` models the memory-pool
outcome), then the posted-request drain path. -/
def ucp_stream_recv_nbx (ctx : UcpContext) (s : StreamState) (count : Nat)
    (length : Nat) (param : RequestParam) (allocOk : Bool) :
    Res (NbxRet × Nat × StreamState) :=
  if !(ucp_context_has_stream ctx) then
    .ok (.statusRet .errInvalidParam, length, s)
  else
    match ucp_stream_try_recv_inplace s count length param with
    | .fatal => .fatal
    | .ok (st, len1, s1) =>
        if st ≠ UcsStatus.errNoProgress then
          .ok (.statusRet st, len1, s1)
        else if param.flag_force_imm_cmpl then
          .ok (.statusRet .errNoResource, length, s1)
        else if !allocOk then
          .ok (.statusRet .errNoMemory, length, s1)
        else
          -- ucp_stream_recv_request_init (its iterator-init status is
          -- modelled as always UCS_OK)
          ucp_stream_recv_request
            (ucp_stream_recv_request_init s1 count param).1
            (ucp_stream_recv_request_init s1 count param).2 length param

/-- The expected-request match loop of `ucp_stream_am_data_process`: feed
the arriving fragment (`cursor`) to the posted requests in FIFO order.
Returns `none` when the fragment was fully consumed (the `UCS_OK` path) or
`some residue` when requests ran out.  A failed unpack is `ucs_fatal`. -/
def ucp_stream_am_match_loop (cursor : Rdesc) (s : StreamState) :
    Res (Option Rdesc × StreamState) :=
  match hq : s.matchQ with
  | [] => .ok (some cursor, s)
  | .req req :: rest =>
      match hu : ucp_stream_rdata_unpack cursor.payload cursor.length req with
      | (_, .error _, _) => .fatal
      | (req2, .ok k, bytes) =>
          let s1 := { s with matchQ := .req req2 :: rest,
                             delivered := s.delivered ++ bytes }
          if k = cursor.length then
            if ucp_request_can_complete_stream_recv req2 then
              match ucp_request_complete_stream_recv req2 s1 .ok with
              | .fatal => .fatal
              | .ok s2 => .ok (none, s2)
            else
              .ok (none, s1)
          else
            -- ucp_stream_rdesc_advance on the stack-local rdesc_tmp:
            -- 0 ≤ k < length, so only the fields advance
            match hc : ucp_request_complete_stream_recv req2 s1 .ok with
            | .fatal => .fatal
            | .ok s2 => ucp_stream_am_match_loop (cursor.advance_fields k) s2
  | .desc _ :: _ => .fatal
termination_by s.matchQ.length
decreasing_by
  obtain ⟨q', rest', hq', hs2⟩ :=
    ucp_request_complete_stream_recv_ok req2 _ .ok s2 hc
  have h1 : (MatchElem.req req2 :: rest) = MatchElem.req q' :: rest' := hq'
  injection h1 with h2 h3
  rw [hs2]
  simp only [hq, List.length_cons, h3]
  omega

/-- Build the enqueued residue descriptor and push it (the tail of
`ucp_stream_am_data_process`): without `UCT_CB_PARAM_FLAG_DESC` the payload
is copied into a pool descriptor; with it, ownership of the transport
buffer is taken in place. -/
def ucp_stream_am_enqueue_residue (cursor : Rdesc) (s : StreamState)
    (am_flag_desc : Bool) : UcsStatus × StreamState :=
  -- ucs_assert(rdesc_tmp.length > 0) (debug)
  let rdesc : Rdesc :=
    if !am_flag_desc then
      { length := cursor.length,
        payload_offset := sizeof_rdesc + sizeof_am_data,
        flag_uct_desc := false,
        release_desc_offset := 0,
        payload := cursor.payload }
    else
      { length := cursor.length,
        payload_offset := cursor.payload_offset + sizeof_rdesc,
        flag_uct_desc := true,
        release_desc_offset := worker_headroom_priv_size,
        payload := cursor.payload }
  (.inprogress, { s with hasData := true,
                         matchQ := s.matchQ ++ [.desc rdesc] })

/-- `ucp_stream_am_data_process`: try to satisfy posted requests in place,
then enqueue the remaining bytes as a descriptor.  The ghost `inbound` log
records the fragment payload. -/
def ucp_stream_am_data_process (s : StreamState) (payload : List Nat)
    (am_flag_desc : Bool) : Res (UcsStatus × StreamState) :=
  let rdesc_tmp : Rdesc :=
    { length := payload.length,
      payload_offset := sizeof_am_data,
      flag_uct_desc := false,
      release_desc_offset := 0,
      payload := payload }
  let s0 := { s with inbound := s.inbound ++ payload }
  if !(ucp_stream_ep_has_data s0) then
    match ucp_stream_am_match_loop rdesc_tmp s0 with
    | .fatal => .fatal
    | .ok (none, s1) => .ok (.ok, s1)
    | .ok (some cursor, s1) =>
        .ok (ucp_stream_am_enqueue_residue cursor s1 am_flag_desc)
  else
    .ok (ucp_stream_am_enqueue_residue rdesc_tmp s0 am_flag_desc)

/-- `ucp_stream_am_handler`: run `ucp_stream_am_data_process` (endpoint
resolution is modelled as always finding this endpoint), then put the
endpoint on the ready list if it retained data, is in use, and is not yet
queued; the return value tells the transport whether the buffer was
retained. -/
def ucp_stream_am_handler (s : StreamState) (payload : List Nat)
    (am_flag_desc : Bool) : Res (UcsStatus × StreamState) :=
  match ucp_stream_am_data_process s payload am_flag_desc with
  | .fatal => .fatal
  | .ok (st, s1) =>
      if st = UcsStatus.ok then
        .ok (.ok, s1)
      else
        -- ucs_assert(status == UCS_INPROGRESS)
        let s2 := if !(ucp_stream_ep_is_queued s1) && s1.epUsed then
                    ucp_stream_ep_enqueue s1
                  else s1
        .ok ((if am_flag_desc then UcsStatus.inprogress else UcsStatus.ok), s2)

/-- `ucp_stream_ep_init`: zero the match queue and the ready-list link. -/
def ucp_stream_ep_init (ctx : UcpContext) (s : StreamState) : StreamState :=
  if ucp_context_has_stream ctx then
    { s with isQueued := false, matchQ := [] }
  else s

/-- `ucp_stream_ep_activate`: if the feature is enabled, data is present
and the endpoint is not on the ready list, add it. -/
def ucp_stream_ep_activate (ctx : UcpContext) (s : StreamState) : StreamState :=
  if ucp_context_has_stream ctx && ucp_stream_ep_has_data s &&
     !(ucp_stream_ep_is_queued s) then
    ucp_stream_ep_enqueue s
  else s

/-- Characterization of `ucp_stream_recv_data_nb_nolock` when it returns a
data pointer: the endpoint had data and the head descriptor was dequeued. -/
theorem ucp_stream_recv_data_nb_nolock_ptr (s : StreamState) (length : Nat)
    (d : LentData) (len2 : Nat) (s1 : StreamState)
    (h : ucp_stream_recv_data_nb_nolock s length = .ok (.ptr d, len2, s1)) :
    s.hasData = true ∧
    ∃ rest, s.matchQ = .desc d.rdesc :: rest ∧
      d.payload = d.rdesc.payload ∧ len2 = d.rdesc.length ∧
      s1 = { s with matchQ := rest,
                    hasData := if rest.isEmpty then false else s.hasData,
                    isQueued := if rest.isEmpty then false else s.isQueued } := by
  unfold ucp_stream_recv_data_nb_nolock ucp_stream_rdesc_dequeue
    ucp_stream_ep_has_data at h
  rcases hd : s.hasData with _ | _
  · rw [hd] at h
    simp at h
  · rw [hd] at h
    rcases hq : s.matchQ with _ | ⟨e, rest⟩ <;> rw [hq] at h
    · simp at h
    · rcases e with r' | q
      · simp only [Bool.not_true, Bool.false_eq_true, if_false,
          Res.ok.injEq, Prod.mk.injEq, StatusPtr.ptr.injEq] at h
        obtain ⟨hdq, hlen, hs1⟩ := h
        subst hdq
        refine ⟨rfl, rest, rfl, rfl, hlen.symm, ?_⟩
        rw [← hs1]
      · simp at h

/-- Characterization of `ucp_stream_recv_data_nb_nolock` when it returns an
encoded status: the endpoint had no data, the status is the OK/NULL
encoding, and nothing changed (including the out parameter). -/
theorem ucp_stream_recv_data_nb_nolock_status (s : StreamState) (length : Nat)
    (st : UcsStatus) (len2 : Nat) (s1 : StreamState)
    (h : ucp_stream_recv_data_nb_nolock s length = .ok (.status st, len2, s1)) :
    s.hasData = false ∧ st = .ok ∧ len2 = length ∧ s1 = s := by
  unfold ucp_stream_recv_data_nb_nolock ucp_stream_rdesc_dequeue
    ucp_stream_ep_has_data at h
  rcases hd : s.hasData with _ | _
  · rw [hd] at h
    simp only [Bool.not_false, if_true, Res.ok.injEq, Prod.mk.injEq,
      StatusPtr.status.injEq] at h
    exact ⟨rfl, h.1.symm, h.2.1.symm, h.2.2.symm⟩
  · rw [hd] at h
    rcases hq : s.matchQ with _ | ⟨e, rest⟩ <;> rw [hq] at h
    · simp at h
    · rcases e with r' | q
      · simp at h
      · simp at h

/-- The descriptor-drop loop of `ucp_stream_ep_cleanup`: repeatedly take
the zero-copy data pointer and release it until the endpoint has no
unmatched data. -/
def ucp_stream_ep_cleanup_drain (s : StreamState) : Res StreamState :=
  match hn : ucp_stream_recv_data_nb_nolock s 0 with
  | .fatal => .fatal
  | .ok (.status _, _, s1) => .ok s1
  | .ok (.ptr d, _, s1) =>
      ucp_stream_ep_cleanup_drain (ucp_stream_data_release d s1)
termination_by s.matchQ.length
decreasing_by
  obtain ⟨hd, rest, hq, hpl, hlen, hs1⟩ :=
    ucp_stream_recv_data_nb_nolock_ptr s 0 d _ s1 hn
  unfold ucp_stream_data_release ucp_recv_desc_release
  simp only [hs1, hq, List.length_cons]
  omega

/-- The request-cancel loop of `ucp_stream_ep_cleanup`: complete every
still-posted request, head first, with the caller's status. -/
def ucp_stream_ep_cleanup_cancel (status : UcsStatus) (s : StreamState) :
    Res StreamState :=
  match hq : s.matchQ with
  | [] => .ok s
  | .req req :: rest =>
      match hc : ucp_request_complete_stream_recv req s status with
      | .fatal => .fatal
      | .ok s1 => ucp_stream_ep_cleanup_cancel status s1
  | .desc _ :: _ => .fatal
termination_by s.matchQ.length
decreasing_by
  obtain ⟨q', rest', hq', hs1⟩ :=
    ucp_request_complete_stream_recv_ok req s status s1 hc
  rw [hq] at hq'
  injection hq' with h2 h3
  rw [hs1]
  simp only [hq, List.length_cons, h3]
  omega

/-- `ucp_stream_ep_cleanup(ep, status)`: with the stream feature enabled,
drop all unmatched descriptors, leave the ready list, then cancel all
still-posted requests with `status`. -/
def ucp_stream_ep_cleanup (ctx : UcpContext) (status : UcsStatus)
    (s : StreamState) : Res StreamState :=
  if !(ucp_context_has_stream ctx) then
    .ok s
  else
    match ucp_stream_ep_cleanup_drain s with
    | .fatal => .fatal
    | .ok s1 =>
        let s2 := if ucp_stream_ep_is_queued s1 then
                    ucp_stream_ep_dequeue s1
                  else s1
        -- ucs_assert(!ucp_stream_ep_has_data(ep_ext)) (debug)
        ucp_stream_ep_cleanup_cancel status s2

/-! ## Engine operations, reachability, and the structural invariant -/

/-- The payloads of the descriptors on a queue, in order. -/
def qBytes : List MatchElem → List Nat
  | [] => []
  | .desc r :: rest => r.payload ++ qBytes rest
  | .req _ :: rest => qBytes rest

/-- The descriptors on a queue, in order. -/
def qDescs : List MatchElem → List Rdesc
  | [] => []
  | .desc r :: rest => r :: qDescs rest
  | .req _ :: rest => qDescs rest

/-- The requests on a queue, in order. -/
def qReqs : List MatchElem → List Request
  | [] => []
  | .desc _ :: rest => qReqs rest
  | .req q :: rest => q :: qReqs rest

def allDesc (q : List MatchElem) : Prop := ∀ e ∈ q, e.isDesc = true

def allReq (q : List MatchElem) : Prop := ∀ e ∈ q, e.isReq = true

/-- A queued descriptor is well formed: its `length` field counts its
payload bytes and is positive (the spec's "length > 0 while queued"). -/
def descOk (r : Rdesc) : Prop := r.length = r.payload.length ∧ 0 < r.length

/-- Elementwise form of descriptor well-formedness on a queue entry. -/
def descOkE : MatchElem → Prop
  | .desc r => descOk r
  | .req _ => True

def qDescOk (q : List MatchElem) : Prop :=
  ∀ e ∈ q, descOkE e

instance (r : Rdesc) : Decidable (descOk r) := by
  unfold descOk
  infer_instance

instance (e : MatchElem) : Decidable (descOkE e) := by
  unfold descOkE
  rcases e with r | q
  · infer_instance
  · infer_instance

/-- The structural invariant of an endpoint's stream state: with `HAS_DATA`
set, `match_q` is a non-empty queue of well-formed descriptors; with it
clear, `match_q` holds only requests. -/
def WF (s : StreamState) : Prop :=
  (s.hasData = true → s.matchQ ≠ [] ∧ allDesc s.matchQ) ∧
  (s.hasData = false → allReq s.matchQ) ∧
  qDescOk s.matchQ

instance (q : List MatchElem) : Decidable (allDesc q) := by
  unfold allDesc
  infer_instance

instance (q : List MatchElem) : Decidable (allReq q) := by
  unfold allReq
  infer_instance

instance (q : List MatchElem) : Decidable (qDescOk q) := by
  unfold qDescOk
  infer_instance

instance (s : StreamState) : Decidable (WF s) := by
  unfold WF
  infer_instance

/-- `match_q` never holds a descriptor and a request at the same time. -/
def queueExclusive (q : List MatchElem) : Prop :=
  ¬((∃ e ∈ q, e.isDesc = true) ∧ (∃ e ∈ q, e.isReq = true))

/-- One entry into the engine: the transport's AM callback, a user API
call, or a lifecycle hook (`ep_init` is the construction of the initial
state and is not an op). -/
inductive EngineOp where
  | opAm (payload : List Nat) (descFlag : Bool)
  | opRecvNbx (count : Nat) (lengthIn : Nat) (param : RequestParam)
      (allocOk : Bool)
  | opRecvDataNb (lengthIn : Nat)
  | opDataRelease (d : LentData)
  | opActivate
  | opCleanup (st : UcsStatus)

/-- The state transition of one engine entry (return values dropped). -/
def engineStep (ctx : UcpContext) (op : EngineOp) (s : StreamState) :
    Res StreamState :=
  match op with
  | .opAm payload descFlag =>
      match ucp_stream_am_handler s payload descFlag with
      | .fatal => .fatal
      | .ok (_, s1) => .ok s1
  | .opRecvNbx count lengthIn param allocOk =>
      match ucp_stream_recv_nbx ctx s count lengthIn param allocOk with
      | .fatal => .fatal
      | .ok (_, _, s1) => .ok s1
  | .opRecvDataNb lengthIn =>
      match ucp_stream_recv_data_nb ctx s lengthIn with
      | .fatal => .fatal
      | .ok (_, _, s1) => .ok s1
  | .opDataRelease d => .ok (ucp_stream_data_release d s)
  | .opActivate => .ok (ucp_stream_ep_activate ctx s)
  | .opCleanup st => ucp_stream_ep_cleanup ctx st s

/-- Run a sequence of engine entries. -/
def engineRun (ctx : UcpContext) : List EngineOp → StreamState → Res StreamState
  | [], s => .ok s
  | op :: ops, s =>
      match engineStep ctx op s with
      | .fatal => .fatal
      | .ok s1 => engineRun ctx ops s1

/-- A freshly created endpoint (all flags clear, empty logs), as left by
`ucp_stream_ep_init` on a zero-initialized endpoint. -/
def mkEp (used : Bool) : StreamState :=
  { matchQ := [], hasData := false, isQueued := false, epUsed := used,
    nextId := 0, inbound := [], delivered := [], released := [],
    completions := [] }

/-- The transport delivers non-empty fragments (`rdesc_tmp.length > 0` is
asserted by the handler); the other entries are unconstrained. -/
def opOK : EngineOp → Prop
  | .opAm payload _ => payload ≠ []
  | _ => True

/-! ## Claim C2: the completion predicate -/

/-- The claim's wording of the completion predicate: true if
`offset == length`; otherwise false if `WAITALL` or `offset == 0`;
otherwise true if the datatype class is not contiguous; otherwise true
exactly when `offset` is a multiple of `elem_size`. -/
def spec_can_complete (req : Request) : Bool :=
  if req.dt_iter.offset = req.dt_iter.length then true
  else if req.waitall = true ∨ req.dt_iter.offset = 0 then false
  else if req.dt_iter.dt_class ≠ DtClass.contig then true
  else decide (req.elem_size ∣ req.dt_iter.offset)

/-- C2: the completion predicate of a stream receive request follows the
specification's cascade exactly: complete at `offset == length`; otherwise
incomplete under `WAITALL` or at offset 0; otherwise complete for
non-contiguous datatypes; otherwise complete exactly at element-size
multiples of the offset. -/
theorem C2_completion_predicate (req : Request) :
    ucp_request_can_complete_stream_recv req = spec_can_complete req := by
  unfold ucp_request_can_complete_stream_recv spec_can_complete
  rcases req with ⟨id, waitall, has_cb, elem_size, ⟨offset, length, dt_class⟩, ue⟩
  simp only [beq_iff_eq, bne_iff_ne, ne_eq, Bool.or_eq_true, decide_eq_true_eq]
  by_cases h1 : offset = length
  · simp [h1]
  · simp only [h1, if_false]
    by_cases h2 : waitall = true ∨ offset = 0
    · rcases h2 with h2 | h2 <;> simp [h2]
    · push_neg at h2
      obtain ⟨h2a, h2b⟩ := h2
      simp only [Bool.not_eq_true] at h2a
      simp only [h2a, Bool.false_eq_true, false_or, h2b, if_false]
      by_cases h3 : dt_class = DtClass.contig
      · simp only [h3, not_true, if_false]
        by_cases h4 : offset % elem_size = 0 <;>
          simp [h4, Nat.dvd_iff_mod_eq_zero]
      · simp [h3]

/-! ## Claims C4 and C10: the zero-copy data path -/

/-- C4: the zero-copy round trip.  Without unmatched data, the public
`recv_data_nb` returns the OK/NULL status pointer and changes nothing.
With data, it dequeues the head descriptor, reports its length through the
out parameter, stores the descriptor self-reference in the word preceding
the returned payload pointer, and returns the payload; `data_release` on
that pointer recovers exactly the same descriptor from the preceding word
and releases it. -/
theorem C4_zero_copy_round_trip (ctx : UcpContext) (s : StreamState)
    (len0 : Nat) (hctx : ctx.featureStream = true) :
    (s.hasData = false →
      ucp_stream_recv_data_nb ctx s len0 = .ok (.status .ok, len0, s)) ∧
    (∀ r rest, s.hasData = true → s.matchQ = .desc r :: rest →
      ∃ s1, ucp_stream_recv_data_nb ctx s len0 =
              .ok (.ptr { rdesc := r, payload := r.payload }, r.length, s1) ∧
            s1.matchQ = rest ∧
            ucp_stream_rdesc_from_data { rdesc := r, payload := r.payload } = r ∧
            ucp_stream_data_release { rdesc := r, payload := r.payload } s1 =
              { s1 with released := s1.released ++ [r] }) := by
  constructor
  · intro hnd
    unfold ucp_stream_recv_data_nb ucp_context_has_stream
      ucp_stream_recv_data_nb_nolock ucp_stream_ep_has_data
    simp [hctx, hnd]
  · intro r rest hhd hq
    refine ⟨{ s with matchQ := rest, hasData := if rest.isEmpty then false else s.hasData, isQueued := if rest.isEmpty then false else s.isQueued }, ?_, rfl, rfl, rfl⟩
    unfold ucp_stream_recv_data_nb ucp_context_has_stream
      ucp_stream_recv_data_nb_nolock ucp_stream_ep_has_data
      ucp_stream_rdesc_dequeue
    simp [hctx, hhd, hq]

/-- A concrete queued descriptor, for witnesses. -/
def sampleDesc : Rdesc :=
  { length := 4, payload_offset := 56, flag_uct_desc := false,
    release_desc_offset := 0, payload := [1, 2, 3, 4] }

/-- A concrete endpoint state holding `sampleDesc`, for witnesses. -/
def sampleStateData : StreamState :=
  { mkEp true with hasData := true, matchQ := [.desc sampleDesc] }

/-- Witness for C4 at a concrete state: one queued descriptor of 4 bytes. -/
theorem C4_zero_copy_round_trip_witness :
    ∃ s1, ucp_stream_recv_data_nb { featureStream := true }
            sampleStateData 5 =
            .ok (.ptr { rdesc := sampleDesc, payload := sampleDesc.payload },
                 sampleDesc.length, s1) ∧
          s1.matchQ = [] ∧
          ucp_stream_rdesc_from_data
            { rdesc := sampleDesc, payload := sampleDesc.payload } =
            sampleDesc ∧
          ucp_stream_data_release
            { rdesc := sampleDesc, payload := sampleDesc.payload } s1 =
            { s1 with released := s1.released ++ [sampleDesc] } :=
  (C4_zero_copy_round_trip { featureStream := true } sampleStateData 5
    rfl).2 sampleDesc [] rfl rfl

/-- C10: with no unmatched data, the public `recv_data_nb` returns the
OK/NULL status pointer, leaves the caller's length out-parameter at its
prior value, and modifies no endpoint state. -/
theorem C10_recv_data_nb_no_data_frame (ctx : UcpContext) (s : StreamState)
    (len0 : Nat) (hctx : ctx.featureStream = true) (hnd : s.hasData = false) :
    ucp_stream_recv_data_nb ctx s len0 = .ok (.status .ok, len0, s) := by
  unfold ucp_stream_recv_data_nb ucp_context_has_stream
    ucp_stream_recv_data_nb_nolock ucp_stream_ep_has_data
  simp [hctx, hnd]

/-- Witness for C10 at a concrete state. -/
theorem C10_recv_data_nb_no_data_frame_witness :
    ucp_stream_recv_data_nb { featureStream := true } (mkEp true) 42 =
      .ok (.status .ok, 42, mkEp true) :=
  C10_recv_data_nb_no_data_frame { featureStream := true } (mkEp true) 42
    rfl rfl

/-! ## Claim C8: the feature gate -/

/-- Counterexample to C8 as stated: `ucp_stream_data_release` performs no
feature check at all — called for an endpoint of a worker without the
`STREAM` feature it does not return `INVALID_PARAM` (it returns void) and
it does change state: the descriptor recovered from the data pointer is
released. -/
theorem C8_feature_gate_counterexample :
    ucp_stream_data_release
      { rdesc := { length := 1, payload_offset := 56, flag_uct_desc := false,
                   release_desc_offset := 0, payload := [3] },
        payload := [3] } (mkEp false) ≠ mkEp false := by
  decide

/-- C8 (amended): `recv_nbx` and `recv_data_nb` on an endpoint whose
worker's context lacks the `STREAM` feature return `INVALID_PARAM` before
any endpoint state is changed; `ucp_stream_data_release` performs no
feature check and unconditionally releases the descriptor recovered from
the data pointer. -/
theorem C8_feature_gate_amended (ctx : UcpContext) (s : StreamState)
    (count lengthIn : Nat) (param : RequestParam) (allocOk : Bool)
    (d : LentData) (hctx : ctx.featureStream = false) :
    ucp_stream_recv_nbx ctx s count lengthIn param allocOk =
        .ok (.statusRet .errInvalidParam, lengthIn, s) ∧
    ucp_stream_recv_data_nb ctx s lengthIn =
        .ok (.status .errInvalidParam, lengthIn, s) ∧
    ucp_stream_data_release d s =
        { s with released := s.released ++ [d.rdesc] } := by
  refine ⟨?_, ?_, rfl⟩
  · unfold ucp_stream_recv_nbx ucp_context_has_stream
    simp [hctx]
  · unfold ucp_stream_recv_data_nb ucp_context_has_stream
    simp [hctx]

/-- Witness for the amended C8 at a concrete featureless context. -/
theorem C8_feature_gate_amended_witness :
    ({ featureStream := false } : UcpContext).featureStream = false ∧
    ucp_stream_recv_nbx { featureStream := false } (mkEp true) 4 0
        { field_datatype := false, flag_no_imm_cmpl := false,
          flag_force_imm_cmpl := false, field_callback := false,
          datatype := .contig 1, flag_waitall := false, unpack_err := none }
        true =
      .ok (.statusRet .errInvalidParam, 0, mkEp true) :=
  ⟨rfl,
   (C8_feature_gate_amended { featureStream := false } (mkEp true) 4 0
     { field_datatype := false, flag_no_imm_cmpl := false,
       flag_force_imm_cmpl := false, field_callback := false,
       datatype := .contig 1, flag_waitall := false, unpack_err := none }
     true
     { rdesc := { length := 1, payload_offset := 56, flag_uct_desc := false,
                  release_desc_offset := 0, payload := [3] },
       payload := [3] } rfl).1⟩

/-! ## Claim C3: the inplace fast path -/

/-- The claim's element size for the inplace path. -/
def inplace_elem_size (param : RequestParam) : Nat :=
  if param.field_datatype = false then 1
  else match param.datatype with
       | .contig es => es
       | _ => 1

/-- The claim's `recv_length` for the inplace path: for contig,
`elem_size * count`; for iov, the total length of the iov list; without an
explicit datatype, `count` bytes. -/
def inplace_recv_length (param : RequestParam) (count : Nat) : Nat :=
  if param.field_datatype = false then count
  else match param.datatype with
       | .contig es => es * count
       | .iov lens => ucp_dt_iov_length lens count
       | .generic _ => 0

/-- "An explicit datatype is neither contig nor iov". -/
def inplace_dt_unusable (param : RequestParam) : Prop :=
  param.field_datatype = true ∧ ucp_dt_is_contig param.datatype = false ∧
    ucp_dt_is_iov param.datatype = false

instance (param : RequestParam) : Decidable (inplace_dt_unusable param) := by
  unfold inplace_dt_unusable
  infer_instance

/-- The bytes consumed by a successful inplace receive: `recv_length` when
the head descriptor holds at least that much, else the descriptor's length
aligned down to the element size. -/
def inplace_consumed (r : Rdesc) (param : RequestParam) (count : Nat) : Nat :=
  if r.length < inplace_recv_length param count then
    ucs_align_down r.length (inplace_elem_size param)
  else
    inplace_recv_length param count

/-- The endpoint state after the head descriptor advanced by `k` bytes
whose payload prefix was delivered to the user. -/
def inplace_advance_state (s : StreamState) (r : Rdesc)
    (rest : List MatchElem) (k : Nat) : StreamState :=
  if k = r.length then
    { s with matchQ := rest,
             hasData := if rest.isEmpty then false else s.hasData,
             isQueued := if rest.isEmpty then false else s.isQueued,
             delivered := s.delivered ++ r.payload.take k,
             released := s.released ++ [r] }
  else
    { s with matchQ := .desc (r.advance_fields k) :: rest,
             delivered := s.delivered ++ r.payload.take k }

/-- The dispatch helper agrees with the claim-side element size and
receive length whenever it lets the fast path proceed. -/
theorem ucp_stream_recv_inplace_lengths_some (param : RequestParam)
    (count : Nat) (e l : Nat)
    (h : ucp_stream_recv_inplace_lengths param count = some (e, l)) :
    e = inplace_elem_size param ∧ l = inplace_recv_length param count ∧
    param.flag_no_imm_cmpl = false ∧ ¬inplace_dt_unusable param := by
  unfold ucp_stream_recv_inplace_lengths at h
  unfold inplace_elem_size inplace_recv_length inplace_dt_unusable
  rcases hni : param.flag_no_imm_cmpl with _ | _ <;> rw [hni] at h
  · rcases hfd : param.field_datatype with _ | _ <;> rw [hfd] at h
    · simp only [Option.some.injEq, Prod.mk.injEq] at h
      simp [hfd, h.1.symm, h.2.symm]
    · rcases hdt : param.datatype with es | lens | total <;>
        rw [hdt] at h <;>
        simp only [ucp_dt_is_contig, ucp_dt_is_iov, if_true,
          Bool.false_eq_true, if_false, Option.some.injEq,
          Prod.mk.injEq] at h
      · simp [hfd, hdt, h.1.symm, h.2.symm, ucp_contig_dt_elem_size,
          ucp_dt_is_contig, ucp_dt_is_iov]
      · simp [hfd, hdt, h.1.symm, h.2.symm, ucp_dt_is_contig, ucp_dt_is_iov]
      · cases h
  · simp at h

/-- The dispatch helper returns `none` exactly on `NO_IMM_CMPL` or an
explicit datatype that is neither contig nor iov. -/
theorem ucp_stream_recv_inplace_lengths_none (param : RequestParam)
    (count : Nat)
    (h : ucp_stream_recv_inplace_lengths param count = none) :
    param.flag_no_imm_cmpl = true ∨ inplace_dt_unusable param := by
  unfold ucp_stream_recv_inplace_lengths at h
  rcases hni : param.flag_no_imm_cmpl with _ | _ <;> rw [hni] at h
  · rcases hfd : param.field_datatype with _ | _ <;> rw [hfd] at h
    · simp at h
    · rcases hdt : param.datatype with es | lens | total <;> rw [hdt] at h
      · simp [ucp_dt_is_contig] at h
      · simp [ucp_dt_is_contig, ucp_dt_is_iov] at h
      · right
        exact ⟨hfd, by rw [hdt]; rfl, by rw [hdt]; rfl⟩
  · left; rfl

/-- The dispatch-helper refactoring is faithful to the source's inline
`attr_mask` cascade: re-deriving the original branch structure. -/
theorem ucp_stream_recv_inplace_lengths_eq (param : RequestParam)
    (count : Nat) :
    ucp_stream_recv_inplace_lengths param count =
      (if (!param.field_datatype && !param.flag_no_imm_cmpl) then
         some (1, count)
       else if (param.field_datatype && !param.flag_no_imm_cmpl) then
         if ucp_dt_is_contig param.datatype then
           some (ucp_contig_dt_elem_size param.datatype,
                 ucp_contig_dt_elem_size param.datatype * count)
         else if ucp_dt_is_iov param.datatype then
           some (1, match param.datatype with
                    | .iov lens => ucp_dt_iov_length lens count
                    | _ => 0)
         else
           none
       else
         none) := by
  unfold ucp_stream_recv_inplace_lengths
  rcases param.flag_no_imm_cmpl with _ | _ <;>
    rcases param.field_datatype with _ | _ <;> rfl

/-- `try_recv_inplace` without unmatched data: NO_PROGRESS, no change. -/
theorem ucp_stream_try_recv_inplace_nodata (s : StreamState)
    (count len0 : Nat) (param : RequestParam) (hd : s.hasData = false) :
    ucp_stream_try_recv_inplace s count len0 param =
      .ok (.errNoProgress, len0, s) := by
  unfold ucp_stream_try_recv_inplace ucp_stream_ep_has_data
  rw [hd]
  simp

/-- `try_recv_inplace` when the `attr_mask` dispatch bails out:
NO_PROGRESS, no change. -/
theorem ucp_stream_try_recv_inplace_none (s : StreamState)
    (count len0 : Nat) (param : RequestParam) (hd : s.hasData = true)
    (hn : ucp_stream_recv_inplace_lengths param count = none) :
    ucp_stream_try_recv_inplace s count len0 param =
      .ok (.errNoProgress, len0, s) := by
  unfold ucp_stream_try_recv_inplace ucp_stream_ep_has_data
  rw [hd, hn]
  simp

/-- The main branch of `try_recv_inplace`: with data and a usable datatype,
either the short-descriptor checks bail out with NO_PROGRESS, or
`recv_length`-or-aligned-down bytes are unpacked and the head descriptor is
advanced by that amount, which is reported through the out parameter. -/
theorem ucp_stream_try_recv_inplace_main (s : StreamState)
    (count len0 : Nat) (param : RequestParam) (r : Rdesc)
    (rest : List MatchElem) (e l : Nat) (hd : s.hasData = true)
    (hq : s.matchQ = .desc r :: rest)
    (hl : ucp_stream_recv_inplace_lengths param count = some (e, l)) :
    ucp_stream_try_recv_inplace s count len0 param =
      (if r.length < l ∧ (param.flag_waitall = true ∨ r.length < e) then
         .ok (.errNoProgress, len0, s)
       else
         .ok (.ok, (if r.length < l then ucs_align_down r.length e else l),
              inplace_advance_state s r rest
                (if r.length < l then ucs_align_down r.length e else l))) := by
  unfold ucp_stream_try_recv_inplace ucp_stream_ep_has_data
    ucp_stream_rdesc_get ucp_request_param_flags_waitall
    ucp_datatype_iter_unpack_single ucp_stream_rdesc_payload
  rw [hd, hl, hq]
  by_cases hb : r.length < l ∧ (param.flag_waitall = true ∨ r.length < e)
  · rw [if_pos hb]
    rcases hb.2 with h2 | h2
    · simp [hb.1, h2]
    · simp [hb.1, h2]
  · rw [if_neg hb]
    by_cases ha : r.length < l
    · have h2 : param.flag_waitall = false ∧ ¬(r.length < e) := by
        rcases hw : param.flag_waitall with _ | _
        · refine ⟨rfl, fun hc => hb ⟨ha, Or.inr hc⟩⟩
        · exact absurd ⟨ha, Or.inl hw⟩ hb
      simp only [ha, h2.1, h2.2]
      unfold ucp_stream_rdesc_advance ucp_stream_rdesc_dequeue_and_release
        ucp_stream_rdesc_dequeue ucp_recv_desc_release inplace_advance_state
      by_cases hk : ucs_align_down r.length e = r.length
      · simp [hk, hq, hd]
      · simp [hk, hq, hd]
    · simp only [ha]
      unfold ucp_stream_rdesc_advance ucp_stream_rdesc_dequeue_and_release
        ucp_stream_rdesc_dequeue ucp_recv_desc_release inplace_advance_state
      by_cases hk : l = r.length
      · simp [hk, hq, hd]
      · simp [hk, hq, hd]

/-- C3: the inplace fast path returns NO_PROGRESS exactly when the endpoint
has no unmatched data, the caller set `NO_IMM_CMPL`, an explicit datatype
is neither contig nor iov, or the head descriptor is shorter than
`recv_length` while `WAITALL` was requested or the descriptor holds less
than one element; in every other case it unpacks `recv_length` bytes (when
the head descriptor holds at least that much) or
`align_down(desc.length, elem_size)` bytes, advances the descriptor by that
amount, and reports that amount in the out parameter. -/
theorem C3_try_recv_inplace (s : StreamState) (count len0 : Nat)
    (param : RequestParam) (hwf : WF s) :
    (ucp_stream_try_recv_inplace s count len0 param =
        .ok (.errNoProgress, len0, s) ↔
      (s.hasData = false ∨ param.flag_no_imm_cmpl = true ∨
       inplace_dt_unusable param ∨
       (∃ r rest, s.matchQ = .desc r :: rest ∧
          r.length < inplace_recv_length param count ∧
          (param.flag_waitall = true ∨
           r.length < inplace_elem_size param)))) ∧
    (∀ r rest, s.hasData = true → s.matchQ = .desc r :: rest →
       param.flag_no_imm_cmpl = false → ¬inplace_dt_unusable param →
       ¬(r.length < inplace_recv_length param count ∧
         (param.flag_waitall = true ∨ r.length < inplace_elem_size param)) →
       ucp_stream_try_recv_inplace s count len0 param =
         .ok (.ok, inplace_consumed r param count,
              inplace_advance_state s r rest
                (inplace_consumed r param count))) := by
  have hmain : ∀ r rest, s.hasData = true → s.matchQ = .desc r :: rest →
      param.flag_no_imm_cmpl = false → ¬inplace_dt_unusable param →
      ¬(r.length < inplace_recv_length param count ∧
        (param.flag_waitall = true ∨ r.length < inplace_elem_size param)) →
      ucp_stream_try_recv_inplace s count len0 param =
        .ok (.ok, inplace_consumed r param count,
             inplace_advance_state s r rest
               (inplace_consumed r param count)) := by
    intro r rest hd hq hni hdu hcond
    rcases hl : ucp_stream_recv_inplace_lengths param count with _ | ⟨e, l⟩
    · rcases ucp_stream_recv_inplace_lengths_none param count hl with hc | hc
      · rw [hni] at hc; cases hc
      · exact absurd hc hdu
    · obtain ⟨he, hll, _, _⟩ :=
        ucp_stream_recv_inplace_lengths_some param count e l hl
      have h := ucp_stream_try_recv_inplace_main s count len0 param r rest
        e l hd hq hl
      rw [he, hll] at h
      rw [if_neg hcond] at h
      rw [h]
      unfold inplace_consumed
      rfl
  constructor
  · constructor
    · intro hres
      by_contra hC
      push_neg at hC
      obtain ⟨hC1, hC2, hC3, hC4⟩ := hC
      have hd : s.hasData = true := by
        rcases hv : s.hasData with _ | _
        · exact absurd hv hC1
        · rfl
      have hni : param.flag_no_imm_cmpl = false := by
        rcases hv : param.flag_no_imm_cmpl with _ | _
        · rfl
        · exact absurd hv hC2
      obtain ⟨r, rest, hq⟩ : ∃ r rest, s.matchQ = .desc r :: rest := by
        obtain ⟨hne, hall⟩ := hwf.1 hd
        rcases hv : s.matchQ with _ | ⟨ed, rest⟩
        · exact absurd hv hne
        · rcases ed with r | q
          · exact ⟨r, rest, rfl⟩
          · have := hall (MatchElem.req q) (by rw [hv]; exact List.mem_cons_self _ _)
            cases this
      have hcond := hC4 r rest hq
      have hnc : ¬(r.length < inplace_recv_length param count ∧
          (param.flag_waitall = true ∨
           r.length < inplace_elem_size param)) := by
        intro hc
        obtain ⟨hw1, he1⟩ := hcond hc.1
        rcases hc.2 with h2 | h2
        · exact hw1 h2
        · omega
      have hres2 := hmain r rest hd hq hni hC3 hnc
      rw [hres2] at hres
      cases hres
    · intro hC
      rcases hC with hC | hC | hC | hC
      · exact ucp_stream_try_recv_inplace_nodata s count len0 param hC
      · have hn : ucp_stream_recv_inplace_lengths param count = none := by
          unfold ucp_stream_recv_inplace_lengths
          rw [hC]
        rcases hv : s.hasData with _ | _
        · exact ucp_stream_try_recv_inplace_nodata s count len0 param hv
        · exact ucp_stream_try_recv_inplace_none s count len0 param hv hn
      · have hn : ucp_stream_recv_inplace_lengths param count = none := by
          unfold ucp_stream_recv_inplace_lengths
          obtain ⟨h1, h2, h3⟩ := hC
          rw [h1]
          rcases hv : param.flag_no_imm_cmpl with _ | _
          · simp [h2, h3]
          · rfl
        rcases hv : s.hasData with _ | _
        · exact ucp_stream_try_recv_inplace_nodata s count len0 param hv
        · exact ucp_stream_try_recv_inplace_none s count len0 param hv hn
      · obtain ⟨r, rest, hq, hlt, hwe⟩ := hC
        rcases hv : s.hasData with _ | _
        · exact ucp_stream_try_recv_inplace_nodata s count len0 param hv
        · rcases hl : ucp_stream_recv_inplace_lengths param count
            with _ | ⟨e, l⟩
          · exact ucp_stream_try_recv_inplace_none s count len0 param hv hl
          · obtain ⟨he, hll, _, _⟩ :=
              ucp_stream_recv_inplace_lengths_some param count e l hl
            have h := ucp_stream_try_recv_inplace_main s count len0 param
              r rest e l hv hq hl
            rw [he, hll] at h
            rw [if_pos ⟨hlt, hwe⟩] at h
            exact h
  · exact hmain

/-- A concrete receive parameter block: explicit contiguous datatype with
element size 2, no flags. -/
def sampleParamContig2 : RequestParam :=
  { field_datatype := true, flag_no_imm_cmpl := false,
    flag_force_imm_cmpl := false, field_callback := false,
    datatype := .contig 2, flag_waitall := false, unpack_err := none }

/-- Witness for C3: a 4-byte descriptor satisfies a 1-element receive of a
2-byte contiguous datatype in place, consuming exactly 2 bytes. -/
theorem C3_try_recv_inplace_witness :
    ucp_stream_try_recv_inplace sampleStateData 1 0 sampleParamContig2 =
      .ok (.ok, 2,
           inplace_advance_state sampleStateData sampleDesc []
             (inplace_consumed sampleDesc sampleParamContig2 1)) :=
  (C3_try_recv_inplace sampleStateData 1 0 sampleParamContig2 (by decide)).2
    sampleDesc [] rfl rfl rfl (by decide) (by decide)

/-! ## Claim C9: unpack errors -/

/-- A posted generic-datatype request whose user vtable fails fatally. -/
def sampleFailReq : Request :=
  { id := 0, waitall := false, has_cb := false, elem_size := 1,
    dt_iter := { offset := 0, length := 8, dt_class := .generic },
    unpack_err := some .errIo }

/-- An endpoint with `sampleFailReq` posted and no unmatched data. -/
def sampleStateReq : StreamState :=
  { mkEp true with matchQ := [.req sampleFailReq] }

/-- Counterexample to C9 as stated: on the inbound AM-handler match path a
fatal unpack error does not complete the request with the error status —
the code calls `ucs_fatal` and the process dies.  Concretely: one posted
generic request whose vtable fails, one arriving 1-byte fragment. -/
theorem C9_unpack_error_counterexample :
    ucp_stream_am_data_process sampleStateReq [5] false = .fatal := by
  rw [ucp_stream_am_data_process]
  simp only [sampleStateReq, sampleFailReq, mkEp, ucp_stream_ep_has_data,
    Bool.not_false, if_true]
  rw [ucp_stream_am_match_loop]
  simp [ucp_stream_rdata_unpack, ucp_request_recv_data_unpack,
    UcsStatus.isErr]

/-- The drain loop on a request whose unpack fails fatally: the error is
returned and the state is untouched. -/
theorem ucp_stream_recv_request_loop_fails (req : Request) (s : StreamState)
    (e : UcsStatus) (r : Rdesc) (rest : List MatchElem)
    (hue : req.unpack_err = some e) (he : e.isErr = true)
    (hw : req.dt_iter.offset < req.dt_iter.length) (hd : s.hasData = true)
    (hq : s.matchQ = .desc r :: rest) :
    ucp_stream_recv_request_loop req s = .ok (.error e, s) := by
  have hget : ucp_stream_rdesc_get s = .ok r := by
    unfold ucp_stream_rdesc_get
    rw [hq]
  have hproc := ucp_stream_process_rdesc_fails r s req e hue he
  rw [ucp_stream_recv_request_loop, dif_pos (And.intro hw hd)]
  split
  · rename_i hg
    rw [hget] at hg
    cases hg
  · rename_i rdesc hg
    rw [hget] at hg
    injection hg with hg'
    subst hg'
    split
    · rename_i hp
      rw [hproc] at hp
      cases hp
    · rename_i st req2 s2 hp
      rw [hproc] at hp
      injection hp with hp'
      simp only [Prod.mk.injEq] at hp'
      obtain ⟨h1, h2, h3⟩ := hp'
      have hne : st ≠ UcsStatus.ok := by
        rw [← h1]
        intro hco
        rw [hco] at he
        cases he
      rw [dif_pos hne, ← h1, ← h3]

/-- `ucp_stream_recv_request` on a request whose unpack fails fatally:
the error status pointer is returned and the state is untouched (the
request is put back without a completion). -/
theorem ucp_stream_recv_request_fails (req : Request) (s : StreamState)
    (length : Nat) (param : RequestParam)
    (e : UcsStatus) (r : Rdesc) (rest : List MatchElem)
    (hue : req.unpack_err = some e) (he : e.isErr = true)
    (hw : req.dt_iter.offset < req.dt_iter.length) (hd : s.hasData = true)
    (hq : s.matchQ = .desc r :: rest) :
    ucp_stream_recv_request req s length param =
      .ok (.statusRet e, length, s) := by
  unfold ucp_stream_recv_request
  rw [ucp_stream_recv_request_loop_fails req s e r rest hue he hw hd hq]

/-- C9 (amended): on the `recv_nbx` drain path a fatal unpack error is
returned to the caller as an error status pointer; the request is released
without a completion, and the endpoint is left un-poisoned — the queued
descriptors, flags and logs are exactly as before the call (only the ghost
request-id counter advanced), so subsequent fragments continue to be
matched.  On the AM-handler match path a fatal unpack error aborts the
process instead (see the counterexample). -/
theorem C9_unpack_error_drain_path (ctx : UcpContext) (s : StreamState)
    (count len0 total : Nat) (param : RequestParam) (e : UcsStatus)
    (r : Rdesc) (rest : List MatchElem)
    (hctx : ctx.featureStream = true)
    (hfd : param.field_datatype = true)
    (hni : param.flag_no_imm_cmpl = false)
    (hfi : param.flag_force_imm_cmpl = false)
    (hdt : param.datatype = .generic total)
    (htot : 0 < total)
    (hue : param.unpack_err = some e)
    (he : e.isErr = true)
    (hd : s.hasData = true)
    (hq : s.matchQ = .desc r :: rest) :
    ucp_stream_recv_nbx ctx s count len0 param true =
      .ok (.statusRet e, len0, { s with nextId := s.nextId + 1 }) := by
  have hlen : ucp_stream_recv_inplace_lengths param count = none := by
    unfold ucp_stream_recv_inplace_lengths
    rw [hni, hfd, hdt]
    rfl
  unfold ucp_stream_recv_nbx ucp_context_has_stream
  rw [hctx]
  rw [ucp_stream_try_recv_inplace_none s count len0 param hd hlen]
  simp only [Bool.not_true, Bool.false_eq_true, if_false, ne_eq,
    not_true_eq_false, if_true, hfi, Bool.not_false]
  have hinitoff :
      (ucp_stream_recv_request_init s count param).1.dt_iter.offset = 0 := rfl
  have hinitlen :
      (ucp_stream_recv_request_init s count param).1.dt_iter.length =
        total := by
    unfold ucp_stream_recv_request_init ucp_request_param_datatype
      ucp_datatype_iter_init_unpack
    rw [hfd, hdt]
    rfl
  rw [ucp_stream_recv_request_fails _ _ len0 param e r rest
    (by exact hue) he (by rw [hinitoff, hinitlen]; exact htot) (by exact hd)
    (by exact hq)]
  rfl

/-- Witness for the amended C9: a concrete failing-generic receive on an
endpoint holding one 4-byte descriptor. -/
theorem C9_unpack_error_drain_path_witness :
    ucp_stream_recv_nbx { featureStream := true } sampleStateData 1 7
        { field_datatype := true, flag_no_imm_cmpl := false,
          flag_force_imm_cmpl := false, field_callback := false,
          datatype := .generic 8, flag_waitall := false,
          unpack_err := some .errIo } true =
      .ok (.statusRet .errIo, 7,
           { sampleStateData with nextId := sampleStateData.nextId + 1 }) :=
  C9_unpack_error_drain_path { featureStream := true } sampleStateData 1 7 8
    { field_datatype := true, flag_no_imm_cmpl := false,
      flag_force_imm_cmpl := false, field_callback := false,
      datatype := .generic 8, flag_waitall := false,
      unpack_err := some .errIo }
    .errIo sampleDesc [] rfl rfl rfl rfl rfl (by decide) rfl rfl rfl rfl

/-! ## Queue utilities -/

theorem qBytes_append (q1 q2 : List MatchElem) :
    qBytes (q1 ++ q2) = qBytes q1 ++ qBytes q2 := by
  induction q1 with
  | nil => rfl
  | cons e rest ih =>
      rcases e with r | q
      · simp [qBytes, ih]
      · simp [qBytes, ih]

theorem qBytes_allReq (q : List MatchElem) (h : allReq q) : qBytes q = [] := by
  induction q with
  | nil => rfl
  | cons e rest ih =>
      rcases e with r | q'
      · have := h (MatchElem.desc r) (List.mem_cons_self _ _)
        cases this
      · exact ih (fun e he => h e (List.mem_cons_of_mem _ he))

theorem qDescs_allReq (q : List MatchElem) (h : allReq q) : qDescs q = [] := by
  induction q with
  | nil => rfl
  | cons e rest ih =>
      rcases e with r | q'
      · have := h (MatchElem.desc r) (List.mem_cons_self _ _)
        cases this
      · exact ih (fun e he => h e (List.mem_cons_of_mem _ he))

theorem qReqs_allDesc (q : List MatchElem) (h : allDesc q) : qReqs q = [] := by
  induction q with
  | nil => rfl
  | cons e rest ih =>
      rcases e with r | q'
      · exact ih (fun e he => h e (List.mem_cons_of_mem _ he))
      · have := h (MatchElem.req q') (List.mem_cons_self _ _)
        cases this

theorem allReq_append_req (q : List MatchElem) (req : Request)
    (h : allReq q) : allReq (q ++ [.req req]) := by
  intro e he
  rcases List.mem_append.mp he with h1 | h1
  · exact h e h1
  · rcases List.mem_singleton.mp h1 with rfl
    rfl

theorem qDescOk_append_req (q : List MatchElem) (req : Request)
    (h : qDescOk q) : qDescOk (q ++ [.req req]) := by
  intro e he
  rcases List.mem_append.mp he with h1 | h1
  · exact h e h1
  · rcases List.mem_singleton.mp h1 with rfl
    trivial

theorem allDesc_tail (e : MatchElem) (q : List MatchElem)
    (h : allDesc (e :: q)) : allDesc q :=
  fun x hx => h x (List.mem_cons_of_mem _ hx)

theorem allReq_tail (e : MatchElem) (q : List MatchElem)
    (h : allReq (e :: q)) : allReq q :=
  fun x hx => h x (List.mem_cons_of_mem _ hx)

theorem qDescOk_tail (e : MatchElem) (q : List MatchElem)
    (h : qDescOk (e :: q)) : qDescOk q :=
  fun x hx => h x (List.mem_cons_of_mem _ hx)

/-- The head of a descriptor queue under `WF` with data. -/
theorem WF_head_desc (s : StreamState) (hwf : WF s) (hd : s.hasData = true) :
    ∃ r rest, s.matchQ = .desc r :: rest := by
  obtain ⟨hne, hall⟩ := hwf.1 hd
  rcases hv : s.matchQ with _ | ⟨e, rest⟩
  · exact absurd hv hne
  · rcases e with r | q
    · exact ⟨r, rest, rfl⟩
    · have := hall (MatchElem.req q) (by rw [hv]; exact List.mem_cons_self _ _)
      cases this

/-- `WF` implies the queue-exclusivity property. -/
theorem WF_queueExclusive (s : StreamState) (hwf : WF s) :
    queueExclusive s.matchQ := by
  rintro ⟨⟨e1, he1, hd1⟩, ⟨e2, he2, hr2⟩⟩
  rcases hv : s.hasData with _ | _
  · have h1 := hwf.2.1 hv e1 he1
    rcases e1 with r | q
    · cases h1
    · cases hd1
  · have h1 := (hwf.1 hv).2 e2 he2
    rcases e2 with r | q
    · cases hr2
    · cases h1

/-- Advancing a well-formed descriptor by `k < length` bytes keeps it well
formed. -/
theorem descOk_advance (r : Rdesc) (k : Nat) (hok : descOk r)
    (hk : k < r.length) : descOk (r.advance_fields k) := by
  obtain ⟨hlen, hpos⟩ := hok
  constructor
  · simp only [Rdesc.advance_fields, List.length_drop]
    omega
  · simp only [Rdesc.advance_fields]
    omega

/-- The dequeued-head state is well formed (the `HAS_DATA` flag is cleared
and the ready-list membership dropped exactly when the queue empties). -/
theorem WF_tail_state (s1 : StreamState) (r : Rdesc) (rest : List MatchElem)
    (hallq : allDesc (.desc r :: rest)) (hokq : qDescOk (.desc r :: rest))
    (hm : s1.matchQ = rest)
    (hh : s1.hasData = (if rest.isEmpty then false else true)) : WF s1 := by
  refine ⟨?_, ?_, ?_⟩
  · intro h2
    rw [hm]
    rw [hh] at h2
    rcases hre : rest.isEmpty with _ | _ <;> rw [hre] at h2
    · refine ⟨?_, allDesc_tail _ _ hallq⟩
      intro hco
      rw [hco] at hre
      cases hre
    · cases h2
  · intro h2
    rw [hm]
    rw [hh] at h2
    rcases hre : rest.isEmpty with _ | _ <;> rw [hre] at h2
    · cases h2
    · intro e he
      rw [List.isEmpty_iff.mp hre] at he
      cases he
  · rw [hm]
    exact qDescOk_tail _ _ hokq

/-- The advanced-head state is well formed. -/
theorem WF_advanced_head_state (s1 : StreamState) (r : Rdesc)
    (rest : List MatchElem) (k : Nat)
    (hallq : allDesc (.desc r :: rest)) (hokq : qDescOk (.desc r :: rest))
    (hklt : k < r.length) (hok : descOk r)
    (hm : s1.matchQ = .desc (r.advance_fields k) :: rest)
    (hh : s1.hasData = true) : WF s1 := by
  refine ⟨?_, ?_, ?_⟩
  · intro _
    rw [hm]
    refine ⟨by simp, ?_⟩
    intro e he
    rcases List.mem_cons.mp he with rfl | h1
    · rfl
    · exact hallq e (List.mem_cons_of_mem _ h1)
  · intro h2
    rw [hh] at h2
    cases h2
  · rw [hm]
    intro e he
    rcases List.mem_cons.mp he with rfl | h1
    · exact descOk_advance r k hok hklt
    · exact hokq e (List.mem_cons_of_mem _ h1)

/-- The state after the inplace fast path (or any head-descriptor advance
by `k ≤ length` with a well-formed head) is well formed and byte
conserving. -/
theorem inplace_advance_state_spec (s : StreamState) (r : Rdesc)
    (rest : List MatchElem) (k : Nat) (hwf : WF s) (hd : s.hasData = true)
    (hq : s.matchQ = .desc r :: rest) (hk : k ≤ r.length) :
    WF (inplace_advance_state s r rest k) ∧
    (inplace_advance_state s r rest k).delivered ++
        qBytes (inplace_advance_state s r rest k).matchQ =
      s.delivered ++ qBytes s.matchQ ∧
    (inplace_advance_state s r rest k).inbound = s.inbound ∧
    (inplace_advance_state s r rest k).completions = s.completions ∧
    (inplace_advance_state s r rest k).nextId = s.nextId ∧
    (inplace_advance_state s r rest k).epUsed = s.epUsed := by
  have hallq : allDesc (MatchElem.desc r :: rest) := by
    have h1 := (hwf.1 hd).2
    rwa [hq] at h1
  have hokq : qDescOk (MatchElem.desc r :: rest) := by
    have h1 := hwf.2.2
    rwa [hq] at h1
  have hok : descOk r := hokq (MatchElem.desc r) (List.mem_cons_self _ _)
  obtain ⟨hlen, hpos⟩ := hok
  unfold inplace_advance_state
  by_cases hke : k = r.length
  · rw [if_pos hke]
    subst hke
    have htake : r.payload.take r.length = r.payload := by
      rw [hlen]
      exact List.take_length r.payload
    refine ⟨?_, ?_, rfl, rfl, rfl, rfl⟩
    · refine WF_tail_state _ r rest hallq hokq rfl ?_
      show (if rest.isEmpty then false else s.hasData) =
        (if rest.isEmpty then false else true)
      rw [hd]
    · simp only [hq, qBytes, htake]
      rw [List.append_assoc]
  · rw [if_neg hke]
    have hklt : k < r.length := lt_of_le_of_ne hk hke
    refine ⟨?_, ?_, rfl, rfl, rfl, rfl⟩
    · exact WF_advanced_head_state _ r rest k hallq hokq hklt ⟨hlen, hpos⟩
        rfl (by show s.hasData = true; exact hd)
    · simp only [qBytes, Rdesc.advance_fields, hq]
      rw [← List.append_assoc, ← List.append_assoc,
        List.append_assoc s.delivered, List.take_append_drop]

/-- A request filled to its full length can complete. -/
theorem can_complete_of_full (req : Request)
    (h : req.dt_iter.offset = req.dt_iter.length) :
    ucp_request_can_complete_stream_recv req = true := by
  unfold ucp_request_can_complete_stream_recv
  simp [h]

/-- A non-contiguous request without `WAITALL` holding at least one byte
can complete. -/
theorem can_complete_of_noncontig (req : Request)
    (h1 : req.dt_iter.dt_class ≠ DtClass.contig) (h2 : req.waitall = false)
    (h3 : 0 < req.dt_iter.offset) :
    ucp_request_can_complete_stream_recv req = true := by
  unfold ucp_request_can_complete_stream_recv
  by_cases he : req.dt_iter.offset = req.dt_iter.length
  · simp [he]
  · have h0 : req.dt_iter.offset ≠ 0 := by omega
    simp [he, h2, h0, h1]

/-- Combined specification of a successful `ucp_stream_process_rdesc` on a
well-formed state: the result is well formed, byte conserving, frame
preserving, and the request/descriptor accounting is as expected. -/
theorem ucp_stream_process_rdesc_ok_spec (rdesc : Rdesc) (s : StreamState)
    (req : Request) (st : UcsStatus) (req2 : Request) (s2 : StreamState)
    (rest : List MatchElem)
    (hwf : WF s) (hd : s.hasData = true)
    (hq : s.matchQ = .desc rdesc :: rest)
    (hle : req.dt_iter.offset ≤ req.dt_iter.length)
    (hp : ucp_stream_process_rdesc rdesc s req = .ok (st, req2, s2)) :
    WF s2 ∧
    s2.delivered ++ qBytes s2.matchQ = s.delivered ++ qBytes s.matchQ ∧
    s2.inbound = s.inbound ∧ s2.completions = s.completions ∧
    s2.nextId = s.nextId ∧ s2.epUsed = s.epUsed ∧
    req2.dt_iter.offset ≤ req2.dt_iter.length ∧
    req2.dt_iter.length = req.dt_iter.length ∧
    req2.dt_iter.dt_class = req.dt_iter.dt_class ∧
    req2.waitall = req.waitall ∧
    (st = .ok →
      req2.dt_iter.offset = req.dt_iter.length ∨
      (req2.dt_iter.offset = req.dt_iter.offset + rdesc.length ∧
       0 < rdesc.length)) ∧
    (st ≠ .ok → s2 = s ∧ req2 = req) := by
  have hallq : allDesc (MatchElem.desc rdesc :: rest) := by
    have h1 := (hwf.1 hd).2
    rwa [hq] at h1
  have hokq : qDescOk (MatchElem.desc rdesc :: rest) := by
    have h1 := hwf.2.2
    rwa [hq] at h1
  have hok : descOk rdesc := hokq (MatchElem.desc rdesc) (List.mem_cons_self _ _)
  obtain ⟨hlen, hpos⟩ := hok
  rcases hfe : ucp_request_unpack_fails req with _ | _
  · by_cases hks : min (req.dt_iter.length - req.dt_iter.offset)
        rdesc.length = rdesc.length
    · rw [ucp_stream_process_rdesc_full rdesc s req rest hq hfe hks] at hp
      injection hp with hp'
      simp only [Prod.mk.injEq] at hp'
      obtain ⟨h1, h2, h3⟩ := hp'
      subst h1
      subst h2
      subst h3
      have htake : rdesc.payload.take rdesc.length = rdesc.payload := by
        rw [hlen]
        exact List.take_length rdesc.payload
      refine ⟨?_, ?_, rfl, rfl, rfl, rfl, by simp; omega, by simp, by simp,
        by simp, ?_, ?_⟩
      · refine WF_tail_state _ rdesc rest hallq hokq rfl ?_
        show (if rest.isEmpty then false else s.hasData) =
          (if rest.isEmpty then false else true)
        rw [hd]
      · show (s.delivered ++ rdesc.payload.take rdesc.length) ++ qBytes rest =
          s.delivered ++ qBytes s.matchQ
        rw [htake, hq]
        simp only [qBytes]
        rw [List.append_assoc]
      · intro _
        right
        exact ⟨by simp, hpos⟩
      · intro hco
        exact absurd rfl hco
    · rw [ucp_stream_process_rdesc_midway rdesc s req rest hq hfe hks] at hp
      injection hp with hp'
      simp only [Prod.mk.injEq] at hp'
      obtain ⟨h1, h2, h3⟩ := hp'
      subst h1
      subst h2
      subst h3
      have hrem : req.dt_iter.length - req.dt_iter.offset < rdesc.length := by
        omega
      refine ⟨?_, ?_, rfl, rfl, rfl, rfl, by simp; omega, by simp, by simp,
        by simp, ?_, ?_⟩
      · exact WF_advanced_head_state _ rdesc rest _ hallq hokq hrem
          ⟨hlen, hpos⟩ rfl (by show s.hasData = true; exact hd)
      · show (s.delivered ++
            rdesc.payload.take (req.dt_iter.length - req.dt_iter.offset)) ++
            qBytes (MatchElem.desc (rdesc.advance_fields
              (req.dt_iter.length - req.dt_iter.offset)) :: rest) =
          s.delivered ++ qBytes s.matchQ
        rw [hq]
        simp only [qBytes, Rdesc.advance_fields]
        rw [← List.append_assoc, List.append_assoc s.delivered,
          List.take_append_drop, List.append_assoc]
      · intro _
        left
        simp
        omega
      · intro hco
        exact absurd rfl hco
  · obtain ⟨e, he, herr⟩ : ∃ e, req.unpack_err = some e ∧ e.isErr = true := by
      unfold ucp_request_unpack_fails at hfe
      rcases h0 : req.unpack_err with _ | e0
      · rw [h0] at hfe
        cases hfe
      · rw [h0] at hfe
        exact ⟨e0, rfl, hfe⟩
    rw [ucp_stream_process_rdesc_fails rdesc s req e he herr] at hp
    injection hp with hp'
    simp only [Prod.mk.injEq] at hp'
    obtain ⟨h1, h2, h3⟩ := hp'
    subst h1
    subst h2
    subst h3
    refine ⟨hwf, rfl, rfl, rfl, rfl, rfl, hle, rfl, rfl, rfl, ?_, ?_⟩
    · intro hco
      rw [hco] at herr
      cases herr
    · intro _
      exact ⟨rfl, rfl⟩

/-- Specification of the drain loop of `ucp_stream_recv_request`: it keeps
the state well formed, conserves bytes between `match_q` and the user
buffers, leaves the other logs alone, and exits with a request that can
complete whenever data remains queued. -/
theorem ucp_stream_recv_request_loop_spec (req : Request) (s : StreamState) :
    WF s → req.dt_iter.offset ≤ req.dt_iter.length →
    ∀ out s2, ucp_stream_recv_request_loop req s = .ok (out, s2) →
      WF s2 ∧
      s2.delivered ++ qBytes s2.matchQ = s.delivered ++ qBytes s.matchQ ∧
      s2.inbound = s.inbound ∧ s2.completions = s.completions ∧
      s2.nextId = s.nextId ∧ s2.epUsed = s.epUsed ∧
      (∀ req2, out = .ok req2 →
        req2.dt_iter.offset ≤ req2.dt_iter.length ∧
        (ucp_request_can_complete_stream_recv req2 = false →
          s2.hasData = false)) := by
  induction req, s using ucp_stream_recv_request_loop.induct with
  | case1 req s hw hg =>
      intro hwf hle out s2 hloop
      obtain ⟨r, rest, hq⟩ := WF_head_desc s hwf hw.2
      have : ucp_stream_rdesc_get s = .ok r := by
        unfold ucp_stream_rdesc_get
        rw [hq]
      rw [this] at hg
      cases hg
  | case2 req s hw rdesc hg hp =>
      intro hwf hle out s2 hloop
      obtain ⟨r, rest, hq⟩ := WF_head_desc s hwf hw.2
      obtain ⟨rest', hq'⟩ := ucp_stream_rdesc_get_ok s rdesc hg
      rcases hfe : ucp_request_unpack_fails req with _ | _
      · by_cases hks : min (req.dt_iter.length - req.dt_iter.offset)
            rdesc.length = rdesc.length
        · rw [ucp_stream_process_rdesc_full rdesc s req rest' hq' hfe hks]
            at hp
          cases hp
        · rw [ucp_stream_process_rdesc_midway rdesc s req rest' hq' hfe hks]
            at hp
          cases hp
      · obtain ⟨e, he, herr⟩ : ∃ e, req.unpack_err = some e ∧ e.isErr = true := by
          unfold ucp_request_unpack_fails at hfe
          rcases h0 : req.unpack_err with _ | e0
          · rw [h0] at hfe
            cases hfe
          · rw [h0] at hfe
            exact ⟨e0, rfl, hfe⟩
        rw [ucp_stream_process_rdesc_fails rdesc s req e he herr] at hp
        cases hp
  | case3 req s hw rdesc hg st req2 s2p hp h1 =>
      intro hwf hle out s2 hloop
      obtain ⟨rest, hq⟩ := ucp_stream_rdesc_get_ok s rdesc hg
      obtain ⟨hA, hB, hC, hD, hE, hF, _, _, _, _, _, hG⟩ :=
        ucp_stream_process_rdesc_ok_spec rdesc s req st req2 s2p rest hwf
          hw.2 hq hle hp
      obtain ⟨hs2, _⟩ := hG h1
      have heval : ucp_stream_recv_request_loop req s = .ok (.error st, s2p) := by
        rw [ucp_stream_recv_request_loop, dif_pos hw]
        split
        · rename_i hg'
          rw [hg] at hg'
          cases hg'
        · rename_i rdesc' hg'
          rw [hg] at hg'
          injection hg' with he'
          subst he'
          split
          · rename_i hp'
            rw [hp] at hp'
            cases hp'
          · rename_i st' req2' s2' hp'
            rw [hp] at hp'
            injection hp' with hp''
            simp only [Prod.mk.injEq] at hp''
            obtain ⟨e1, e2, e3⟩ := hp''
            subst e1
            subst e2
            subst e3
            rw [dif_pos h1]
      rw [heval] at hloop
      injection hloop with hl'
      simp only [Prod.mk.injEq] at hl'
      obtain ⟨hl1, hl2⟩ := hl'
      subst hl2
      rw [hs2]
      refine ⟨hwf, rfl, rfl, rfl, rfl, rfl, ?_⟩
      intro req3 hco
      rw [← hl1] at hco
      cases hco
  | case4 req s hw rdesc hg st req2 s2p hp h1 h2 =>
      intro hwf hle out s2 hloop
      obtain ⟨rest, hq⟩ := ucp_stream_rdesc_get_ok s rdesc hg
      obtain ⟨hA, hB, hC, hD, hE, hF, hb1, hb2, hb3, hb4, hGok, _⟩ :=
        ucp_stream_process_rdesc_ok_spec rdesc s req st req2 s2p rest hwf
          hw.2 hq hle hp
      have hst : st = UcsStatus.ok := not_ne_iff.mp h1
      have heval : ucp_stream_recv_request_loop req s = .ok (.ok req2, s2p) := by
        rw [ucp_stream_recv_request_loop, dif_pos hw]
        split
        · rename_i hg'
          rw [hg] at hg'
          cases hg'
        · rename_i rdesc' hg'
          rw [hg] at hg'
          injection hg' with he'
          subst he'
          split
          · rename_i hp'
            rw [hp] at hp'
            cases hp'
          · rename_i st' req2' s2' hp'
            rw [hp] at hp'
            injection hp' with hp''
            simp only [Prod.mk.injEq] at hp''
            obtain ⟨e1, e2, e3⟩ := hp''
            subst e1
            subst e2
            subst e3
            rw [dif_neg (not_not.mpr hst), if_pos h2]
      rw [heval] at hloop
      injection hloop with hl'
      simp only [Prod.mk.injEq] at hl'
      obtain ⟨hl1, hl2⟩ := hl'
      subst hl2
      refine ⟨hA, hB, hC, hD, hE, hF, ?_⟩
      intro req3 hco
      rw [← hl1] at hco
      injection hco with hco'
      subst hco'
      refine ⟨hb1, ?_⟩
      intro hcc
      rcases hGok hst with hfull | ⟨hoff, hposd⟩
      · rw [can_complete_of_full req2 (by rw [hfull, hb2])] at hcc
        cases hcc
      · have : ucp_request_can_complete_stream_recv req2 = true := by
          by_cases hfl : req2.dt_iter.offset = req2.dt_iter.length
          · exact can_complete_of_full req2 hfl
          · refine can_complete_of_noncontig req2 ?_ h2.2 ?_
            · rw [h2.1]
              intro hcon
              cases hcon
            · omega
        rw [this] at hcc
        cases hcc
  | case5 req s hw rdesc hg st req2 s2p hp h1 h2 ih =>
      intro hwf hle out s2 hloop
      obtain ⟨rest, hq⟩ := ucp_stream_rdesc_get_ok s rdesc hg
      obtain ⟨hA, hB, hC, hD, hE, hF, hb1, hb2, hb3, hb4, hGok, _⟩ :=
        ucp_stream_process_rdesc_ok_spec rdesc s req st req2 s2p rest hwf
          hw.2 hq hle hp
      have hst : st = UcsStatus.ok := not_ne_iff.mp h1
      have heval : ucp_stream_recv_request_loop req s =
          ucp_stream_recv_request_loop req2 s2p := by
        rw [ucp_stream_recv_request_loop, dif_pos hw]
        split
        · rename_i hg'
          rw [hg] at hg'
          cases hg'
        · rename_i rdesc' hg'
          rw [hg] at hg'
          injection hg' with he'
          subst he'
          split
          · rename_i hp'
            rw [hp] at hp'
            cases hp'
          · rename_i st' req2' s2' hp'
            rw [hp] at hp'
            injection hp' with hp''
            simp only [Prod.mk.injEq] at hp''
            obtain ⟨e1, e2, e3⟩ := hp''
            subst e1
            subst e2
            subst e3
            rw [dif_neg (not_not.mpr hst), if_neg h2]
      rw [heval] at hloop
      obtain ⟨iA, iB, iC, iD, iE, iF, iG⟩ := ih hA hb1 out s2 hloop
      refine ⟨iA, by rw [iB, hB], by rw [iC, hC], by rw [iD, hD],
        by rw [iE, hE], by rw [iF, hF], iG⟩
  | case6 req s hw =>
      intro hwf hle out s2 hloop
      rw [ucp_stream_recv_request_loop, dif_neg hw] at hloop
      injection hloop with hl'
      simp only [Prod.mk.injEq] at hl'
      obtain ⟨hl1, hl2⟩ := hl'
      subst hl2
      refine ⟨hwf, rfl, rfl, rfl, rfl, rfl, ?_⟩
      intro req3 hco
      rw [← hl1] at hco
      injection hco with hco'
      subst hco'
      refine ⟨hle, ?_⟩
      intro hcc
      rcases hv : s.hasData with _ | _
      · rfl
      · have hnlt : ¬(req.dt_iter.offset < req.dt_iter.length) := by
          intro hlt
          exact hw ⟨hlt, hv⟩
        have hfl : req.dt_iter.offset = req.dt_iter.length := by omega
        rw [can_complete_of_full req hfl] at hcc
        cases hcc

/-- Completing against a request-headed queue never aborts. -/
theorem ucp_request_complete_stream_recv_not_fatal (req : Request)
    (s : StreamState) (st : UcsStatus) (q : Request) (rest : List MatchElem)
    (hq : s.matchQ = .req q :: rest) :
    ucp_request_complete_stream_recv req s st ≠ .fatal := by
  unfold ucp_request_complete_stream_recv
  rw [hq]
  simp

/-- Unpack cannot fail when it returned a byte count. -/
theorem unpack_fails_false_of_ok (rdata : List Nat) (length : Nat)
    (req req2 : Request) (k : Nat) (bytes : List Nat)
    (hu : ucp_stream_rdata_unpack rdata length req = (req2, .ok k, bytes)) :
    ucp_request_unpack_fails req = false := by
  rcases hfe : ucp_request_unpack_fails req with _ | _
  · rfl
  · obtain ⟨e, he, herr⟩ : ∃ e, req.unpack_err = some e ∧ e.isErr = true := by
      unfold ucp_request_unpack_fails at hfe
      rcases h0 : req.unpack_err with _ | e0
      · rw [h0] at hfe
        cases hfe
      · rw [h0] at hfe
        exact ⟨e0, rfl, hfe⟩
    rw [ucp_stream_rdata_unpack_fails rdata length req e he herr] at hu
    injection hu with h1 h2
    injection h2 with h3
    cases h3

/-- Specification of the inbound match loop of
`ucp_stream_am_data_process`: it keeps the posted-request queue a request
queue, delivers the consumed fragment prefix to user buffers in order, and
returns the unconsumed residue (if any) with correct accounting. -/
theorem ucp_stream_am_match_loop_spec (cursor : Rdesc) (s : StreamState) :
    allReq s.matchQ → s.hasData = false →
    cursor.length = cursor.payload.length → 0 < cursor.length →
    ∀ out s2, ucp_stream_am_match_loop cursor s = .ok (out, s2) →
      allReq s2.matchQ ∧ s2.hasData = false ∧ s2.isQueued = s.isQueued ∧
      s2.inbound = s.inbound ∧ s2.released = s.released ∧
      s2.nextId = s.nextId ∧ s2.epUsed = s.epUsed ∧
      (out = none → s2.delivered = s.delivered ++ cursor.payload) ∧
      (∀ c2, out = some c2 →
        s2.delivered ++ c2.payload = s.delivered ++ cursor.payload ∧
        c2.length = c2.payload.length ∧ 0 < c2.length ∧ s2.matchQ = []) := by
  induction cursor, s using ucp_stream_am_match_loop.induct with
  | case1 cursor s hq =>
      intro hall hnd hcur hpos out s2 hloop
      have heval : ucp_stream_am_match_loop cursor s = .ok (some cursor, s) := by
        rw [ucp_stream_am_match_loop]
        split
        · rfl
        · rename_i req rest heq
          rw [hq] at heq
          cases heq
        · rename_i r tail heq
          rw [hq] at heq
          cases heq
      rw [heval] at hloop
      injection hloop with hl'
      simp only [Prod.mk.injEq] at hl'
      obtain ⟨hl1, hl2⟩ := hl'
      subst hl2
      refine ⟨hall, hnd, rfl, rfl, rfl, rfl, rfl, ?_, ?_⟩
      · intro hco
        rw [← hl1] at hco
        cases hco
      · intro c2 hco
        rw [← hl1] at hco
        injection hco with hco'
        subst hco'
        exact ⟨rfl, hcur, hpos, hq⟩
  | case2 cursor s req rest hq fst e snd hu =>
      intro hall hnd hcur hpos out s2 hloop
      have heval : ucp_stream_am_match_loop cursor s = .fatal := by
        rw [ucp_stream_am_match_loop]
        split
        · rename_i heq
          rw [hq] at heq
          cases heq
        · rename_i req' rest' heq
          rw [hq] at heq
          injection heq with he1 he2
          injection he1 with he1'
          subst he1'
          subst he2
          split
          · rfl
          · rename_i req2' k' bytes' hu'
            rw [hu] at hu'
            injection hu' with h1 h2
            injection h2 with h3
            cases h3
        · rfl
      rw [heval] at hloop
      cases hloop
  | case3 cursor s req rest hq req2 bytes s1 hcc hfatal hu =>
      intro hall hnd hcur hpos out s2 hloop
      exact absurd hfatal
        (ucp_request_complete_stream_recv_not_fatal _ _ _ req2 rest rfl)
  | case4 cursor s req rest hq req2 bytes s1 hcc s' hok hu =>
      intro hall hnd hcur hpos out s2 hloop
      have hfe := unpack_fails_false_of_ok _ _ _ _ _ _ hu
      have heval : ucp_stream_am_match_loop cursor s = .ok (none, s') := by
        rw [ucp_stream_am_match_loop]
        split
        · rename_i heq
          rw [hq] at heq
          cases heq
        · rename_i req' rest' heq
          rw [hq] at heq
          injection heq with he1 he2
          injection he1 with he1'
          subst he1'
          subst he2
          split
          · rename_i heq2
            rw [hu] at heq2
            injection heq2 with h1 h2
            injection h2 with h3
            cases h3
          · rename_i req2' k' bytes' hu'
            rw [hu] at hu'
            injection hu' with h1 h2
            subst h1
            injection h2 with h3 h4
            injection h3 with h3'
            subst h3'
            subst h4
            rw [if_pos rfl, if_pos hcc]
            rw [hok]
        · rename_i r tail heq
          rw [hq] at heq
          cases heq
      rw [heval] at hloop
      injection hloop with hl'
      simp only [Prod.mk.injEq] at hl'
      obtain ⟨hl1, hl2⟩ := hl'
      subst hl2
      obtain ⟨q', rest', hq', hs'⟩ :=
        ucp_request_complete_stream_recv_ok req2 _ .ok s' hok
      have hqq : (MatchElem.req req2 :: rest) = MatchElem.req q' :: rest' := hq'
      injection hqq with hqq1 hqq2
      have hbytes : bytes = cursor.payload := by
        rw [ucp_stream_rdata_unpack_ok cursor.payload cursor.length req hfe]
          at hu
        injection hu with h1 h2
        injection h2 with h3 h4
        rw [← h4, hcur]
        have : min (req.dt_iter.length - req.dt_iter.offset)
            cursor.payload.length = cursor.payload.length := by
          injection h3 with h3'
          omega
        rw [this]
        exact List.take_length cursor.payload
      rw [hs']
      refine ⟨?_, hnd, rfl, rfl, rfl, rfl, rfl, ?_, ?_⟩
      · show allReq rest'
        rw [← hqq2]
        exact allReq_tail _ _ (hq ▸ hall)
      · intro _
        show s.delivered ++ bytes = s.delivered ++ cursor.payload
        rw [hbytes]
      · intro c2 hco
        rw [← hl1] at hco
        cases hco
  | case5 cursor s req rest hq req2 bytes hcc hu =>
      intro hall hnd hcur hpos out s2 hloop
      have hfe := unpack_fails_false_of_ok _ _ _ _ _ _ hu
      have heval : ucp_stream_am_match_loop cursor s =
          .ok (none, { s with matchQ := .req req2 :: rest,
                              delivered := s.delivered ++ bytes }) := by
        rw [ucp_stream_am_match_loop]
        split
        · rename_i heq
          rw [hq] at heq
          cases heq
        · rename_i req' rest' heq
          rw [hq] at heq
          injection heq with he1 he2
          injection he1 with he1'
          subst he1'
          subst he2
          split
          · rename_i heq2
            rw [hu] at heq2
            injection heq2 with h1 h2
            injection h2 with h3
            cases h3
          · rename_i req2' k' bytes' hu'
            rw [hu] at hu'
            injection hu' with h1 h2
            subst h1
            injection h2 with h3 h4
            injection h3 with h3'
            subst h3'
            subst h4
            rw [if_pos rfl, if_neg hcc]
        · rename_i r tail heq
          rw [hq] at heq
          cases heq
      rw [heval] at hloop
      injection hloop with hl'
      simp only [Prod.mk.injEq] at hl'
      obtain ⟨hl1, hl2⟩ := hl'
      subst hl2
      have hbytes : bytes = cursor.payload := by
        rw [ucp_stream_rdata_unpack_ok cursor.payload cursor.length req hfe]
          at hu
        injection hu with h1 h2
        injection h2 with h3 h4
        rw [← h4, hcur]
        have : min (req.dt_iter.length - req.dt_iter.offset)
            cursor.payload.length = cursor.payload.length := by
          injection h3 with h3'
          omega
        rw [this]
        exact List.take_length cursor.payload
      refine ⟨?_, hnd, rfl, rfl, rfl, rfl, rfl, ?_, ?_⟩
      · show allReq (MatchElem.req req2 :: rest)
        intro e he
        rcases List.mem_cons.mp he with rfl | h1
        · rfl
        · exact allReq_tail _ _ (hq ▸ hall) e h1
      · intro _
        show s.delivered ++ bytes = s.delivered ++ cursor.payload
        rw [hbytes]
      · intro c2 hco
        rw [← hl1] at hco
        cases hco
  | case6 cursor s req rest hq req2 k bytes hu s1 hk hfatal =>
      intro hall hnd hcur hpos out s2 hloop
      exact absurd hfatal
        (ucp_request_complete_stream_recv_not_fatal _ _ _ req2 rest rfl)
  | case7 cursor s req rest hq req2 k bytes hu s1 hk s2p hok ih =>
      intro hall hnd hcur hpos out s2 hloop
      have hfe := unpack_fails_false_of_ok _ _ _ _ _ _ hu
      have hkmin : k = min (req.dt_iter.length - req.dt_iter.offset)
          cursor.length := by
        rw [ucp_stream_rdata_unpack_ok cursor.payload cursor.length req hfe]
          at hu
        injection hu with h1 h2
        injection h2 with h3 h4
        injection h3 with h3'
        rw [h3']
      have hklt : k < cursor.length := by
        rw [hkmin]
        omega
      have hbytes : bytes = cursor.payload.take k := by
        rw [ucp_stream_rdata_unpack_ok cursor.payload cursor.length req hfe]
          at hu
        injection hu with h1 h2
        injection h2 with h3 h4
        rw [← h4, hkmin]
      have heval : ucp_stream_am_match_loop cursor s =
          ucp_stream_am_match_loop (cursor.advance_fields k) s2p := by
        rw [ucp_stream_am_match_loop]
        split
        · rename_i heq
          rw [hq] at heq
          cases heq
        · rename_i req' rest' heq
          rw [hq] at heq
          injection heq with he1 he2
          injection he1 with he1'
          subst he1'
          subst he2
          split
          · rename_i heq2
            rw [hu] at heq2
            injection heq2 with h1 h2
            injection h2 with h3
            cases h3
          · rename_i req2' k' bytes' hu'
            rw [hu] at hu'
            injection hu' with h1 h2
            subst h1
            injection h2 with h3 h4
            injection h3 with h3'
            subst h3'
            subst h4
            rw [if_neg hk]
            rw [hok]
        · rename_i r tail heq
          rw [hq] at heq
          cases heq
      rw [heval] at hloop
      obtain ⟨q', rest', hq', hs2p⟩ :=
        ucp_request_complete_stream_recv_ok req2 _ .ok s2p hok
      have hqq : (MatchElem.req req2 :: rest) = MatchElem.req q' :: rest' := hq'
      injection hqq with hqq1 hqq2
      have hall2 : allReq s2p.matchQ := by
        rw [hs2p]
        show allReq rest'
        rw [← hqq2]
        exact allReq_tail _ _ (hq ▸ hall)
      have hnd2 : s2p.hasData = false := by
        rw [hs2p]
        exact hnd
      have hcur2 : (cursor.advance_fields k).length =
          (cursor.advance_fields k).payload.length := by
        simp only [Rdesc.advance_fields, List.length_drop]
        omega
      have hpos2 : 0 < (cursor.advance_fields k).length := by
        simp only [Rdesc.advance_fields]
        omega
      obtain ⟨iA, iB, iC, iD, iE, iF, iG, iH, iI⟩ :=
        ih hall2 hnd2 hcur2 hpos2 out s2 hloop
      have hdel2 : s2p.delivered = s.delivered ++ cursor.payload.take k := by
        rw [hs2p]
        show s.delivered ++ bytes = _
        rw [hbytes]
      refine ⟨iA, iB, by rw [iC, hs2p], by rw [iD, hs2p], by rw [iE, hs2p],
        by rw [iF, hs2p], by rw [iG, hs2p], ?_, ?_⟩
      · intro hco
        rw [iH hco, hdel2]
        simp only [Rdesc.advance_fields]
        rw [List.append_assoc, List.take_append_drop]
      · intro c2 hco
        obtain ⟨j1, j2, j3, j4⟩ := iI c2 hco
        refine ⟨?_, j2, j3, j4⟩
        rw [j1, hdel2]
        simp only [Rdesc.advance_fields]
        rw [List.append_assoc, List.take_append_drop]
  | case8 cursor s r tail hq =>
      intro hall hnd hcur hpos out s2 hloop
      have := hall (MatchElem.desc r) (by rw [hq]; exact List.mem_cons_self _ _)
      cases this

theorem qDescOk_of_allReq (q : List MatchElem) (h : allReq q) : qDescOk q := by
  intro e he
  rcases e with r | q'
  · have := h (MatchElem.desc r) he
    cases this
  · trivial

/-- Any successful return of the inplace fast path leaves a well-formed,
byte-conserving state; a NO_PROGRESS status means nothing changed. -/
theorem ucp_stream_try_recv_inplace_spec (s : StreamState) (count len0 : Nat)
    (param : RequestParam) (hwf : WF s) :
    ∀ st len1 s1,
      ucp_stream_try_recv_inplace s count len0 param = .ok (st, len1, s1) →
      WF s1 ∧
      s1.delivered ++ qBytes s1.matchQ = s.delivered ++ qBytes s.matchQ ∧
      s1.inbound = s.inbound ∧ s1.completions = s.completions ∧
      s1.nextId = s.nextId ∧ s1.epUsed = s.epUsed ∧
      (st = .errNoProgress → s1 = s) := by
  intro st len1 s1 h
  rcases hd : s.hasData with _ | _
  · rw [ucp_stream_try_recv_inplace_nodata s count len0 param hd] at h
    injection h with h'
    simp only [Prod.mk.injEq] at h'
    obtain ⟨h1, h2, h3⟩ := h'
    subst h3
    exact ⟨hwf, rfl, rfl, rfl, rfl, rfl, fun _ => rfl⟩
  · rcases hl : ucp_stream_recv_inplace_lengths param count with _ | ⟨e, l⟩
    · rw [ucp_stream_try_recv_inplace_none s count len0 param hd hl] at h
      injection h with h'
      simp only [Prod.mk.injEq] at h'
      obtain ⟨h1, h2, h3⟩ := h'
      subst h3
      exact ⟨hwf, rfl, rfl, rfl, rfl, rfl, fun _ => rfl⟩
    · obtain ⟨r, rest, hq⟩ := WF_head_desc s hwf hd
      rw [ucp_stream_try_recv_inplace_main s count len0 param r rest e l hd
        hq hl] at h
      by_cases hcond : r.length < l ∧ (param.flag_waitall = true ∨ r.length < e)
      · rw [if_pos hcond] at h
        injection h with h'
        simp only [Prod.mk.injEq] at h'
        obtain ⟨h1, h2, h3⟩ := h'
        subst h3
        exact ⟨hwf, rfl, rfl, rfl, rfl, rfl, fun _ => rfl⟩
      · rw [if_neg hcond] at h
        injection h with h'
        simp only [Prod.mk.injEq] at h'
        obtain ⟨h1, h2, h3⟩ := h'
        have hk : (if r.length < l then ucs_align_down r.length e else l) ≤
            r.length := by
          by_cases ha : r.length < l
          · rw [if_pos ha]
            unfold ucs_align_down
            omega
          · rw [if_neg ha]
            omega
        obtain ⟨sA, sB, sC, sD, sE, sF⟩ :=
          inplace_advance_state_spec s r rest _ hwf hd hq hk
        rw [← h3]
        refine ⟨sA, sB, sC, sD, sE, sF, ?_⟩
        intro hco
        rw [hco] at h1
        cases h1

/-- `ucp_stream_recv_request` keeps the state well formed and byte
conserving (the completion log may grow). -/
theorem ucp_stream_recv_request_spec (req : Request) (s : StreamState)
    (len0 : Nat) (param : RequestParam) (hwf : WF s)
    (hle : req.dt_iter.offset ≤ req.dt_iter.length) :
    ∀ ret len1 s2,
      ucp_stream_recv_request req s len0 param = .ok (ret, len1, s2) →
      WF s2 ∧
      s2.delivered ++ qBytes s2.matchQ = s.delivered ++ qBytes s.matchQ ∧
      s2.inbound = s.inbound ∧ s2.nextId = s.nextId ∧ s2.epUsed = s.epUsed := by
  intro ret len1 s2 h
  unfold ucp_stream_recv_request at h
  split at h
  · cases h
  · rename_i e s1 hloop
    obtain ⟨iA, iB, iC, iD, iE, iF, _⟩ :=
      ucp_stream_recv_request_loop_spec req s hwf hle _ _ hloop
    injection h with h'
    simp only [Prod.mk.injEq] at h'
    obtain ⟨h1, h2, h3⟩ := h'
    subst h3
    exact ⟨iA, iB, iC, iE, iF⟩
  · rename_i req2 s1 hloop
    obtain ⟨iA, iB, iC, iD, iE, iF, iG⟩ :=
      ucp_stream_recv_request_loop_spec req s hwf hle _ _ hloop
    obtain ⟨ib1, ib2⟩ := iG req2 rfl
    split at h
    · injection h with h'
      simp only [Prod.mk.injEq] at h'
      obtain ⟨h1, h2, h3⟩ := h'
      subst h3
      refine ⟨⟨iA.1, iA.2.1, iA.2.2⟩, ?_, iC, iE, iF⟩
      exact iB
    · rename_i hcc
      injection h with h'
      simp only [Prod.mk.injEq] at h'
      obtain ⟨h1, h2, h3⟩ := h'
      subst h3
      have hnd : s1.hasData = false := ib2 (by
        rcases hv : ucp_request_can_complete_stream_recv req2 with _ | _
        · rfl
        · exact absurd hv hcc)
      have hall : allReq (s1.matchQ ++ [.req req2]) :=
        allReq_append_req _ _ (iA.2.1 hnd)
      refine ⟨⟨?_, ?_, ?_⟩, ?_, iC, iE, iF⟩
      · intro hd2
        rw [hnd] at hd2
        cases hd2
      · intro _
        exact hall
      · exact qDescOk_append_req _ _ iA.2.2
      · show s1.delivered ++ qBytes (s1.matchQ ++ [.req req2]) = _
        rw [qBytes_append]
        simp only [qBytes]
        rw [List.append_nil]
        exact iB

/-- `ucp_stream_recv_nbx` keeps the state well formed and byte conserving. -/
theorem ucp_stream_recv_nbx_spec (ctx : UcpContext) (s : StreamState)
    (count len0 : Nat) (param : RequestParam) (allocOk : Bool) (hwf : WF s) :
    ∀ ret len1 s2,
      ucp_stream_recv_nbx ctx s count len0 param allocOk =
        .ok (ret, len1, s2) →
      WF s2 ∧
      s2.delivered ++ qBytes s2.matchQ = s.delivered ++ qBytes s.matchQ ∧
      s2.inbound = s.inbound ∧ s2.epUsed = s.epUsed := by
  intro ret len1 s2 h
  unfold ucp_stream_recv_nbx at h
  split at h
  · injection h with h'
    simp only [Prod.mk.injEq] at h'
    obtain ⟨h1, h2, h3⟩ := h'
    subst h3
    exact ⟨hwf, rfl, rfl, rfl⟩
  · split at h
    · cases h
    · rename_i st1 len1' s1 hinp
      obtain ⟨jA, jB, jC, jD, jE, jF, jG⟩ :=
        ucp_stream_try_recv_inplace_spec s count len0 param hwf _ _ _ hinp
      split at h
      · injection h with h'
        simp only [Prod.mk.injEq] at h'
        obtain ⟨h1, h2, h3⟩ := h'
        subst h3
        exact ⟨jA, jB, jC, jF⟩
      · rename_i hnp
        have hs1 : s1 = s := jG (not_ne_iff.mp hnp)
        subst hs1
        split at h
        · injection h with h'
          simp only [Prod.mk.injEq] at h'
          obtain ⟨h1, h2, h3⟩ := h'
          subst h3
          exact ⟨jA, jB, jC, jF⟩
        · split at h
          · injection h with h'
            simp only [Prod.mk.injEq] at h'
            obtain ⟨h1, h2, h3⟩ := h'
            subst h3
            exact ⟨jA, jB, jC, jF⟩
          · obtain ⟨kA, kB, kC, kD, kE⟩ :=
              ucp_stream_recv_request_spec
                (ucp_stream_recv_request_init s1 count param).1
                (ucp_stream_recv_request_init s1 count param).2 len0 param
                (by exact jA) (Nat.zero_le _) ret len1 s2 h
            refine ⟨kA, ?_, ?_, ?_⟩
            · rw [kB]
              exact jB
            · rw [kC]
              exact jC
            · rw [kE]
              exact jF

/-- `ucp_stream_am_data_process` keeps the state well formed, appends the
fragment to the inbound log, and conserves bytes: everything that arrived
is either already delivered to user buffers or still queued. -/
theorem ucp_stream_am_data_process_spec (s : StreamState)
    (payload : List Nat) (flagDesc : Bool) (hwf : WF s)
    (hpl : payload ≠ []) :
    ∀ st s2, ucp_stream_am_data_process s payload flagDesc = .ok (st, s2) →
      WF s2 ∧
      s2.inbound = s.inbound ++ payload ∧
      s2.delivered ++ qBytes s2.matchQ =
        s.delivered ++ qBytes s.matchQ ++ payload ∧
      s2.isQueued = s.isQueued ∧ s2.released = s.released ∧
      s2.nextId = s.nextId ∧ s2.epUsed = s.epUsed := by
  intro st s2 h
  have hplpos : 0 < payload.length := List.length_pos.mpr hpl
  unfold ucp_stream_am_data_process at h
  rcases hd : s.hasData with _ | _
  · simp only [ucp_stream_ep_has_data, hd, Bool.not_false, if_true] at h
    split at h
    · cases h
    · rename_i s1 hloop
      obtain ⟨iA, iB, iC, iD, iE, iF, iG, iH, iI⟩ :=
        ucp_stream_am_match_loop_spec _ _
          (by show allReq s.matchQ; exact hwf.2.1 hd) rfl rfl hplpos
          _ _ hloop
      injection h with h'
      simp only [Prod.mk.injEq] at h'
      obtain ⟨h1, h2⟩ := h'
      subst h2
      have hqb : qBytes s.matchQ = [] := qBytes_allReq _ (hwf.2.1 hd)
      refine ⟨⟨?_, ?_, ?_⟩, ?_, ?_, ?_, ?_, ?_, ?_⟩
      · intro hd2
        rw [iB] at hd2
        cases hd2
      · intro _
        exact iA
      · exact qDescOk_of_allReq _ iA
      · rw [iD]
      · rw [qBytes_allReq _ iA, List.append_nil, iH rfl, hqb,
          List.append_nil]
      · rw [iC]
      · rw [iE]
      · rw [iF]
      · rw [iG]
    · rename_i cursor s1 hloop
      obtain ⟨iA, iB, iC, iD, iE, iF, iG, iH, iI⟩ :=
        ucp_stream_am_match_loop_spec _ _
          (by show allReq s.matchQ; exact hwf.2.1 hd) rfl rfl hplpos
          _ _ hloop
      obtain ⟨j1, j2, j3, j4⟩ := iI cursor rfl
      injection h with h'
      rw [ucp_stream_am_enqueue_residue] at h'
      simp only [Prod.mk.injEq] at h'
      obtain ⟨h1, h2⟩ := h'
      rw [← h2]
      have hqb : qBytes s.matchQ = [] := qBytes_allReq _ (hwf.2.1 hd)
      refine ⟨⟨?_, ?_, ?_⟩, ?_, ?_, ?_, ?_, ?_, ?_⟩
      · intro _
        constructor
        · rw [j4]
          simp
        · rw [j4]
          intro e he
          rcases List.mem_cons.mp he with rfl | h1'
          · rcases flagDesc with _ | _ <;> rfl
          · cases h1'
      · intro hd2
        simp only at hd2
        cases hd2
      · rw [j4]
        intro e he
        rcases List.mem_cons.mp he with rfl | h1'
        · rcases flagDesc with _ | _ <;>
            exact ⟨by simp [j2], by simp; omega⟩
        · cases h1'
      · rw [iD]
      · show s1.delivered ++ qBytes (s1.matchQ ++ [_]) = _
        rw [qBytes_append, j4]
        rcases flagDesc with _ | _ <;>
          · simp only [qBytes, List.append_nil, List.nil_append]
            simp only [Bool.not_false, Bool.not_true, Bool.false_eq_true,
              if_true, if_false]
            rw [hqb, List.append_nil]
            exact j1
      · rw [iC]
      · rw [iE]
      · rw [iF]
      · rw [iG]
  · simp only [ucp_stream_ep_has_data, hd, Bool.not_true, Bool.false_eq_true,
      if_false] at h
    injection h with h'
    rw [ucp_stream_am_enqueue_residue] at h'
    simp only [Prod.mk.injEq] at h'
    obtain ⟨h1, h2⟩ := h'
    rw [← h2]
    have hall : allDesc s.matchQ := (hwf.1 hd).2
    refine ⟨⟨?_, ?_, ?_⟩, rfl, ?_, rfl, rfl, rfl, rfl⟩
    · intro _
      constructor
      · simp
      · intro e he
        rcases List.mem_append.mp he with h1' | h1'
        · exact hall e h1'
        · rcases List.mem_singleton.mp h1' with rfl
          rcases flagDesc with _ | _ <;> rfl
    · intro hd2
      simp only at hd2
      cases hd2
    · intro e he
      rcases List.mem_append.mp he with h1' | h1'
      · exact hwf.2.2 e h1'
      · rcases List.mem_singleton.mp h1' with rfl
        rcases flagDesc with _ | _ <;> exact ⟨rfl, by simp; omega⟩
    · show s.delivered ++ qBytes (s.matchQ ++ [_]) = _
      rw [qBytes_append]
      rcases flagDesc with _ | _ <;>
        simp [qBytes, List.append_assoc]

/-- `ucp_stream_am_handler` keeps the state well formed, appends the
fragment to the inbound log, and conserves bytes. -/
theorem ucp_stream_am_handler_spec (s : StreamState) (payload : List Nat)
    (flagDesc : Bool) (hwf : WF s) (hpl : payload ≠ []) :
    ∀ st s2, ucp_stream_am_handler s payload flagDesc = .ok (st, s2) →
      WF s2 ∧
      s2.inbound = s.inbound ++ payload ∧
      s2.delivered ++ qBytes s2.matchQ =
        s.delivered ++ qBytes s.matchQ ++ payload ∧
      s2.released = s.released ∧ s2.nextId = s.nextId ∧
      s2.epUsed = s.epUsed := by
  intro st s2 h
  unfold ucp_stream_am_handler at h
  split at h
  · cases h
  · rename_i st1 s1 hproc
    obtain ⟨pA, pB, pC, pD, pE, pF, pG⟩ :=
      ucp_stream_am_data_process_spec s payload flagDesc hwf hpl _ _ hproc
    split at h
    · injection h with h'
      simp only [Prod.mk.injEq] at h'
      obtain ⟨h1, h2⟩ := h'
      subst h2
      exact ⟨pA, pB, pC, pE, pF, pG⟩
    · injection h with h'
      simp only [Prod.mk.injEq] at h'
      obtain ⟨h1, h2⟩ := h'
      rw [← h2]
      by_cases hc : (!(ucp_stream_ep_is_queued s1) && s1.epUsed) = true
      · rw [if_pos hc]
        exact ⟨pA, pB, pC, pE, pF, pG⟩
      · rw [if_neg hc]
        exact ⟨pA, pB, pC, pE, pF, pG⟩

/-- Computation of the nolock zero-copy receive without data. -/
theorem ucp_stream_recv_data_nb_nolock_nodata (s : StreamState) (L : Nat)
    (hd : s.hasData = false) :
    ucp_stream_recv_data_nb_nolock s L = .ok (.status .ok, L, s) := by
  unfold ucp_stream_recv_data_nb_nolock ucp_stream_ep_has_data
  rw [hd]
  simp

/-- Computation of the nolock zero-copy receive with data. -/
theorem ucp_stream_recv_data_nb_nolock_data (s : StreamState) (L : Nat)
    (r : Rdesc) (rest : List MatchElem) (hd : s.hasData = true)
    (hq : s.matchQ = .desc r :: rest) :
    ucp_stream_recv_data_nb_nolock s L =
      .ok (.ptr { rdesc := r, payload := r.payload }, r.length,
           { s with matchQ := rest,
                    hasData := if rest.isEmpty then false else s.hasData,
                    isQueued := if rest.isEmpty then false else s.isQueued }) := by
  unfold ucp_stream_recv_data_nb_nolock ucp_stream_ep_has_data
    ucp_stream_rdesc_dequeue
  rw [hd, hq]
  simp [hd]

/-- The descriptor-drop loop of `ep_cleanup` empties a descriptor queue,
clears the flags, and releases every queued descriptor in order. -/
theorem ucp_stream_ep_cleanup_drain_spec (s : StreamState) :
    WF s →
    (s.hasData = false → ucp_stream_ep_cleanup_drain s = .ok s) ∧
    (s.hasData = true → ucp_stream_ep_cleanup_drain s =
       .ok { s with matchQ := [], hasData := false, isQueued := false,
                    released := s.released ++ qDescs s.matchQ }) := by
  induction s using ucp_stream_ep_cleanup_drain.induct with
  | case1 s hn =>
      intro hwf
      rcases hd : s.hasData with _ | _
      · rw [ucp_stream_recv_data_nb_nolock_nodata s 0 hd] at hn
        cases hn
      · obtain ⟨r, rest, hq⟩ := WF_head_desc s hwf hd
        rw [ucp_stream_recv_data_nb_nolock_data s 0 r rest hd hq] at hn
        cases hn
  | case2 s st fst s1 hn =>
      intro hwf
      obtain ⟨hd, hst, hfst, hs1⟩ :=
        ucp_stream_recv_data_nb_nolock_status s 0 st fst s1 hn
      subst hs1
      constructor
      · intro _
        rw [ucp_stream_ep_cleanup_drain]
        split
        · rename_i hn'
          rw [hn] at hn'
          cases hn'
        · rename_i st' fst' s1' hn'
          rw [hn] at hn'
          injection hn' with h'
          simp only [Prod.mk.injEq, StatusPtr.status.injEq] at h'
          rw [h'.2.2]
        · rename_i d fst' s1' hn'
          rw [hn] at hn'
          cases hn'
      · intro hco
        rw [hco] at hd
        cases hd
  | case3 s d fst s1 hn ih =>
      intro hwf
      obtain ⟨hd, rest, hq, hpl, hlen, hs1⟩ :=
        ucp_stream_recv_data_nb_nolock_ptr s 0 d fst s1 hn
      have hallq : allDesc (MatchElem.desc d.rdesc :: rest) := by
        have h1 := (hwf.1 hd).2
        rwa [hq] at h1
      have hokq : qDescOk (MatchElem.desc d.rdesc :: rest) := by
        have h1 := hwf.2.2
        rwa [hq] at h1
      have hwf1 : WF (ucp_stream_data_release d s1) := by
        refine WF_tail_state _ d.rdesc rest hallq hokq ?_ ?_
        · rw [hs1]
          rfl
        · rw [hs1]
          show (if rest.isEmpty then false else s.hasData) = _
          rw [hd]
      have heval : ucp_stream_ep_cleanup_drain s =
          ucp_stream_ep_cleanup_drain (ucp_stream_data_release d s1) := by
        rw [ucp_stream_ep_cleanup_drain]
        split
        · rename_i hn'
          rw [hn] at hn'
          cases hn'
        · rename_i st' fst' s1' hn'
          rw [hn] at hn'
          cases hn'
        · rename_i d' fst' s1' hn'
          rw [hn] at hn'
          injection hn' with h'
          simp only [Prod.mk.injEq, StatusPtr.ptr.injEq] at h'
          rw [← h'.1, ← h'.2.2]
      refine ⟨?_, ?_⟩
      · intro hco
        rw [hco] at hd
        cases hd
      · intro _
        rw [heval]
        rcases hre : rest.isEmpty with _ | _
        · have hd1 : (ucp_stream_data_release d s1).hasData = true := by
            rw [hs1]
            show (if rest.isEmpty then false else s.hasData) = true
            rw [hre, hd]
            rfl
          rw [(ih hwf1).2 hd1]
          rw [hs1]
          unfold ucp_stream_data_release ucp_recv_desc_release
            ucp_stream_rdesc_from_data
          rw [hq]
          simp only [qDescs, hre]
          simp [List.append_assoc]
        · have hd1 : (ucp_stream_data_release d s1).hasData = false := by
            rw [hs1]
            show (if rest.isEmpty then false else s.hasData) = false
            rw [hre]
            rfl
          rw [(ih hwf1).1 hd1]
          rw [hs1]
          unfold ucp_stream_data_release ucp_recv_desc_release
            ucp_stream_rdesc_from_data
          rw [hq]
          have hrnil : rest = [] := List.isEmpty_iff.mp hre
          subst hrnil
          simp [qDescs, hre]

/-- The cancel loop of `ep_cleanup` completes every posted request with the
given status, in posting order. -/
theorem ucp_stream_ep_cleanup_cancel_spec (status : UcsStatus)
    (s : StreamState) :
    allReq s.matchQ →
    ucp_stream_ep_cleanup_cancel status s =
      .ok { s with matchQ := [],
                   completions := (s.completions ++ (qReqs s.matchQ).map
                     (fun q => { reqId := q.id, status := status,
                                 length := q.dt_iter.offset })) } := by
  induction s using ucp_stream_ep_cleanup_cancel.induct status with
  | case1 s hq =>
      intro hall
      rcases s with ⟨mq, f1, f2, f3, f4, f5, f6, f7, f8⟩
      simp only at hq
      subst hq
      rw [ucp_stream_ep_cleanup_cancel]
      simp only [qReqs, List.map_nil, List.append_nil]
  | case2 s req rest hq hfatal =>
      intro hall
      exact absurd hfatal
        (ucp_request_complete_stream_recv_not_fatal _ _ _ req rest hq)
  | case3 s req rest hq s2 hok ih =>
      intro hall
      obtain ⟨q', rest', hq', hs2⟩ :=
        ucp_request_complete_stream_recv_ok req s status s2 hok
      rw [hq] at hq'
      injection hq' with hq1 hq2
      injection hq1 with hq1'
      subst hq1'
      subst hq2
      have hall2 : allReq s2.matchQ := by
        rw [hs2]
        exact allReq_tail _ _ (hq ▸ hall)
      have heval : ucp_stream_ep_cleanup_cancel status s =
          ucp_stream_ep_cleanup_cancel status s2 := by
        rw [ucp_stream_ep_cleanup_cancel]
        split
        · rename_i hq''
          rw [hq] at hq''
          cases hq''
        · rename_i req' rest'' hq''
          rw [hq] at hq''
          injection hq'' with hh1 hh2
          injection hh1 with hh1'
          subst hh1'
          subst hh2
          split
          · rename_i hfatal
            rw [hok] at hfatal
            cases hfatal
          · rename_i s2' hok'
            rw [hok] at hok'
            injection hok' with hok''
            rw [hok'']
        · rename_i r tail hq''
          rw [hq] at hq''
          cases hq''
      rw [heval, ih hall2, hs2, hq]
      simp [qReqs, List.append_assoc]
  | case4 s r tail hq =>
      intro hall
      have h1 := hall (MatchElem.desc r) (by rw [hq]; exact List.mem_cons_self _ _)
      cases h1

/-- C7: after `ep_cleanup(ep, E)` on a stream-enabled worker, `match_q` is
empty, `HAS_DATA` and the ready-list membership are clear, every queued
descriptor has been released, and every posted request has been completed
exactly once with status `E`, in posting order. -/
theorem ucp_stream_ep_cleanup_eq (ctx : UcpContext) (E : UcsStatus)
    (s : StreamState) (hctx : ctx.featureStream = true) (s1 : StreamState)
    (hdrain : ucp_stream_ep_cleanup_drain s = .ok s1) :
    ucp_stream_ep_cleanup ctx E s =
      ucp_stream_ep_cleanup_cancel E
        (if ucp_stream_ep_is_queued s1 then ucp_stream_ep_dequeue s1
         else s1) := by
  unfold ucp_stream_ep_cleanup ucp_context_has_stream
  rw [hctx]
  simp only [Bool.not_true, Bool.false_eq_true, if_false]
  rw [hdrain]

theorem C7_cleanup_completeness (ctx : UcpContext) (s : StreamState)
    (E : UcsStatus) (hctx : ctx.featureStream = true) (hwf : WF s) :
    ∃ s', ucp_stream_ep_cleanup ctx E s = .ok s' ∧
      s'.matchQ = [] ∧ s'.hasData = false ∧ s'.isQueued = false ∧
      s'.released = s.released ++ qDescs s.matchQ ∧
      s'.completions = s.completions ++ (qReqs s.matchQ).map
        (fun q => { reqId := q.id, status := E,
                    length := q.dt_iter.offset }) := by
  rcases hd : s.hasData with _ | _
  · rw [ucp_stream_ep_cleanup_eq ctx E s hctx s
      ((ucp_stream_ep_cleanup_drain_spec s hwf).1 hd)]
    have hall : allReq s.matchQ := hwf.2.1 hd
    have hdescs : qDescs s.matchQ = [] := qDescs_allReq _ hall
    unfold ucp_stream_ep_is_queued ucp_stream_ep_dequeue
    rcases hiq : s.isQueued with _ | _
    · simp only [Bool.false_eq_true, if_false]
      rw [ucp_stream_ep_cleanup_cancel_spec E s hall]
      refine ⟨_, rfl, rfl, ?_, ?_, ?_, rfl⟩
      · exact hd
      · exact hiq
      · rw [hdescs, List.append_nil]
    · simp only [if_true]
      rw [ucp_stream_ep_cleanup_cancel_spec E { s with isQueued := false }
        (by exact hall)]
      refine ⟨_, rfl, rfl, ?_, rfl, ?_, rfl⟩
      · exact hd
      · rw [hdescs, List.append_nil]
  · rw [ucp_stream_ep_cleanup_eq ctx E s hctx _
      ((ucp_stream_ep_cleanup_drain_spec s hwf).2 hd)]
    have hreqs : qReqs s.matchQ = [] := qReqs_allDesc _ (hwf.1 hd).2
    unfold ucp_stream_ep_is_queued ucp_stream_ep_dequeue
    simp only [Bool.false_eq_true, if_false]
    rw [ucp_stream_ep_cleanup_cancel_spec E _ (by
      intro e he
      cases he)]
    refine ⟨_, rfl, rfl, rfl, rfl, rfl, ?_⟩
    rw [hreqs]
    simp [qReqs]

/-- A concrete posted request for the C7 witness. -/
def sampleReqA : Request :=
  { id := 10, waitall := false, has_cb := true, elem_size := 1,
    dt_iter := { offset := 3, length := 8, dt_class := .contig },
    unpack_err := none }

/-- A second concrete posted request for the C7 witness. -/
def sampleReqB : Request :=
  { id := 11, waitall := true, has_cb := false, elem_size := 4,
    dt_iter := { offset := 0, length := 16, dt_class := .iov },
    unpack_err := none }

/-- An endpoint with two posted requests and no unmatched data. -/
def sampleStateTwoReqs : StreamState :=
  { mkEp true with matchQ := [.req sampleReqA, .req sampleReqB] }

/-- Witness for C7: cleaning up an endpoint with two posted requests empties
`match_q`, clears the flags, and completes both requests with the given
status in posting order. -/
theorem C7_cleanup_completeness_witness :
    ∃ s', ucp_stream_ep_cleanup { featureStream := true } .errCanceled
            sampleStateTwoReqs = .ok s' ∧
      s'.matchQ = [] ∧ s'.hasData = false ∧ s'.isQueued = false ∧
      s'.released = sampleStateTwoReqs.released ++
        qDescs sampleStateTwoReqs.matchQ ∧
      s'.completions = sampleStateTwoReqs.completions ++
        (qReqs sampleStateTwoReqs.matchQ).map
          (fun q => { reqId := q.id, status := .errCanceled,
                      length := q.dt_iter.offset }) :=
  C7_cleanup_completeness { featureStream := true } sampleStateTwoReqs
    .errCanceled rfl (by decide)

/-! ## Preservation of the structural invariant by every engine entry -/

/-- A state with an empty queue and `HAS_DATA` clear satisfies the
invariant. -/
theorem WF_empty (s : StreamState) (hm : s.matchQ = [])
    (hh : s.hasData = false) : WF s := by
  refine ⟨fun hc => ?_, fun _ => ?_, ?_⟩
  · rw [hh] at hc
    cases hc
  · rw [hm]
    intro e he
    cases he
  · rw [hm]
    intro e he
    cases he

/-- The public zero-copy receive preserves the structural invariant. -/
theorem ucp_stream_recv_data_nb_WF (ctx : UcpContext) (s : StreamState)
    (L : Nat) (hwf : WF s) :
    ∀ ret len s2, ucp_stream_recv_data_nb ctx s L = .ok (ret, len, s2) →
      WF s2 := by
  intro ret len s2 h
  unfold ucp_stream_recv_data_nb at h
  split at h
  · injection h with h'
    simp only [Prod.mk.injEq] at h'
    obtain ⟨h1, h2, h3⟩ := h'
    subst h3
    exact hwf
  · rcases ret with st | d
    · obtain ⟨hd, hst, hlen, hs2⟩ :=
        ucp_stream_recv_data_nb_nolock_status s L st len s2 h
      subst hs2
      exact hwf
    · obtain ⟨hd, rest, hq, hpl, hlen, hs2⟩ :=
        ucp_stream_recv_data_nb_nolock_ptr s L d len s2 h
      refine WF_tail_state s2 d.rdesc rest (hq ▸ (hwf.1 hd).2)
        (hq ▸ hwf.2.2) ?_ ?_
      · rw [hs2]
      · rw [hs2]
        show (if rest.isEmpty then false else s.hasData) = _
        rw [hd]

/-- Releasing lent data only appends to the ghost release log, so the
invariant is untouched. -/
theorem ucp_stream_data_release_WF (d : LentData) (s : StreamState)
    (hwf : WF s) : WF (ucp_stream_data_release d s) := by
  unfold ucp_stream_data_release ucp_recv_desc_release
  exact hwf

/-- Activation only touches the ready-list flag. -/
theorem ucp_stream_ep_activate_WF (ctx : UcpContext) (s : StreamState)
    (hwf : WF s) : WF (ucp_stream_ep_activate ctx s) := by
  unfold ucp_stream_ep_activate ucp_stream_ep_enqueue
  split
  · exact hwf
  · exact hwf

/-- Endpoint cleanup leaves a state satisfying the invariant. -/
theorem ucp_stream_ep_cleanup_WF (ctx : UcpContext) (E : UcsStatus)
    (s : StreamState) (hwf : WF s) :
    ∀ s2, ucp_stream_ep_cleanup ctx E s = .ok s2 → WF s2 := by
  intro s2 h
  rcases hctx : ctx.featureStream with _ | _
  · unfold ucp_stream_ep_cleanup ucp_context_has_stream at h
    rw [hctx] at h
    simp only [Bool.not_false, if_true, Res.ok.injEq] at h
    subst h
    exact hwf
  · rcases hd : s.hasData with _ | _
    · rw [ucp_stream_ep_cleanup_eq ctx E s hctx s
        ((ucp_stream_ep_cleanup_drain_spec s hwf).1 hd)] at h
      have hall : allReq s.matchQ := hwf.2.1 hd
      unfold ucp_stream_ep_is_queued ucp_stream_ep_dequeue at h
      split at h
      · rw [ucp_stream_ep_cleanup_cancel_spec E { s with isQueued := false }
          (by exact hall)] at h
        injection h with h'
        exact WF_empty s2 (by rw [← h']) (by rw [← h']; exact hd)
      · rw [ucp_stream_ep_cleanup_cancel_spec E s hall] at h
        injection h with h'
        exact WF_empty s2 (by rw [← h']) (by rw [← h']; exact hd)
    · rw [ucp_stream_ep_cleanup_eq ctx E s hctx _
        ((ucp_stream_ep_cleanup_drain_spec s hwf).2 hd)] at h
      unfold ucp_stream_ep_is_queued ucp_stream_ep_dequeue at h
      simp only [Bool.false_eq_true, if_false] at h
      rw [ucp_stream_ep_cleanup_cancel_spec E _ (by
        intro e he
        cases he)] at h
      injection h with h'
      exact WF_empty s2 (by rw [← h']) (by rw [← h'])

/-- One engine entry preserves the structural invariant. -/
theorem engineStep_WF (ctx : UcpContext) (op : EngineOp) (s : StreamState)
    (hwf : WF s) (hop : opOK op) :
    ∀ s2, engineStep ctx op s = .ok s2 → WF s2 := by
  intro s2 h
  rcases op with ⟨payload, flagDesc⟩ | ⟨count, len0, param, allocOk⟩ |
    L | d | _ | E
  · simp only [engineStep] at h
    split at h
    · cases h
    · rename_i st s1 ham
      injection h with h'
      subst h'
      exact (ucp_stream_am_handler_spec s payload flagDesc hwf hop
        _ _ ham).1
  · simp only [engineStep] at h
    split at h
    · cases h
    · rename_i ret len1 s1 hnbx
      injection h with h'
      subst h'
      exact (ucp_stream_recv_nbx_spec ctx s count len0 param allocOk hwf
        _ _ _ hnbx).1
  · simp only [engineStep] at h
    split at h
    · cases h
    · rename_i ret len1 s1 hdn
      injection h with h'
      subst h'
      exact ucp_stream_recv_data_nb_WF ctx s L hwf _ _ _ hdn
  · simp only [engineStep] at h
    injection h with h'
    subst h'
    exact ucp_stream_data_release_WF d s hwf
  · simp only [engineStep] at h
    injection h with h'
    subst h'
    exact ucp_stream_ep_activate_WF ctx s hwf
  · simp only [engineStep] at h
    exact ucp_stream_ep_cleanup_WF ctx E s hwf s2 h

/-- Every state reached by a run of well-formed engine entries from a
well-formed state satisfies the structural invariant. -/
theorem engineRun_WF (ctx : UcpContext) (ops : List EngineOp)
    (s : StreamState) (hwf : WF s) (hops : ∀ op ∈ ops, opOK op) :
    ∀ s2, engineRun ctx ops s = .ok s2 → WF s2 := by
  induction ops generalizing s with
  | nil =>
      intro s2 h
      rw [engineRun] at h
      injection h with h'
      subst h'
      exact hwf
  | cons op ops ih =>
      intro s2 h
      rw [engineRun] at h
      split at h
      · cases h
      · rename_i s1 hstep
        exact ih s1
          (engineStep_WF ctx op s hwf (hops op (List.mem_cons_self _ _))
            s1 hstep)
          (fun o ho => hops o (List.mem_cons_of_mem _ ho)) s2 h

/-! ## Claim C5: queue exclusivity -/

/-- C5: in every state reachable from a fresh endpoint by any interleaving
of the AM handler, `recv_nbx`, `recv_data_nb`, `data_release`, and the
lifecycle hooks, `match_q` never simultaneously contains a descriptor and a
request. -/
theorem C5_queue_exclusivity (ctx : UcpContext) (ops : List EngineOp)
    (hops : ∀ op ∈ ops, opOK op) :
    ∀ s2, engineRun ctx ops (mkEp true) = .ok s2 →
      queueExclusive s2.matchQ := by
  intro s2 h
  exact WF_queueExclusive s2
    (engineRun_WF ctx ops (mkEp true) (WF_empty _ rfl rfl) hops s2 h)

/-- The residue descriptor built by the AM handler from a 2-byte fragment
without `UCT_CB_PARAM_FLAG_DESC`. -/
def sampleAmDesc : Rdesc :=
  { length := 2, payload_offset := 56, flag_uct_desc := false,
    release_desc_offset := 0, payload := [1, 2] }

/-- The endpoint state after one 2-byte fragment arrives on a fresh, used
endpoint with nothing posted. -/
def sampleAmRunState : StreamState :=
  { matchQ := [.desc sampleAmDesc], hasData := true, isQueued := true,
    epUsed := true, nextId := 0, inbound := [1, 2], delivered := [],
    released := [], completions := [] }

/-- One AM delivery of `[1, 2]` on a fresh endpoint, evaluated. -/
theorem engineRun_am_sample :
    engineRun { featureStream := true } [.opAm [1, 2] false] (mkEp true) =
      .ok sampleAmRunState := by
  have h1 : engineStep { featureStream := true } (.opAm [1, 2] false)
      (mkEp true) = .ok sampleAmRunState := by
    simp only [engineStep, ucp_stream_am_handler, ucp_stream_am_data_process]
    rw [ucp_stream_am_match_loop]
    simp [mkEp, ucp_stream_ep_has_data, ucp_stream_ep_is_queued,
      ucp_stream_am_enqueue_residue, ucp_stream_ep_enqueue, sizeof_rdesc,
      sizeof_am_data, sampleAmRunState, sampleAmDesc]
  simp only [engineRun, h1]

/-- Witness for C5: after a concrete one-fragment run the queue holds only
a descriptor, and exclusivity holds at the reached state. -/
theorem C5_queue_exclusivity_witness :
    engineRun { featureStream := true } [.opAm [1, 2] false] (mkEp true) =
      .ok sampleAmRunState ∧
    queueExclusive sampleAmRunState.matchQ :=
  ⟨engineRun_am_sample,
   C5_queue_exclusivity { featureStream := true } [.opAm [1, 2] false]
     (by
       intro op hop
       rw [List.mem_singleton] at hop
       subst hop
       simp [opOK])
     sampleAmRunState engineRun_am_sample⟩

/-! ## Claim C6: HAS_DATA and ready-list clearing -/

/-- C6: dequeuing the last descriptor clears `HAS_DATA` and removes the
endpoint from the ready list within the same operation, and after every
engine run `HAS_DATA` implies a non-empty `match_q`. -/
theorem C6_has_data_clearing (s : StreamState) (r : Rdesc)
    (hq : s.matchQ = [.desc r]) :
    ucp_stream_rdesc_dequeue s =
      .ok (r, { s with matchQ := [], hasData := false,
                       isQueued := false }) ∧
    ∀ ctx ops, (∀ op ∈ ops, opOK op) →
      ∀ s2, engineRun ctx ops (mkEp true) = .ok s2 →
        s2.hasData = true → s2.matchQ ≠ [] := by
  constructor
  · unfold ucp_stream_rdesc_dequeue
    rw [hq]
    simp
  · intro ctx ops hops s2 h hd2
    exact ((engineRun_WF ctx ops (mkEp true) (WF_empty _ rfl rfl)
      hops s2 h).1 hd2).1

/-- The singleton-descriptor state of the C6 witness after its dequeue. -/
def sampleStateDataDequeued : StreamState :=
  { sampleStateData with
    matchQ := [], hasData := false, isQueued := false }

/-- Witness for C6: the concrete singleton-descriptor state, and the
reached state of the concrete one-fragment run. -/
theorem C6_has_data_clearing_witness :
    ucp_stream_rdesc_dequeue sampleStateData =
      .ok (sampleDesc, sampleStateDataDequeued) ∧
    (sampleAmRunState.hasData = true → sampleAmRunState.matchQ ≠ []) :=
  ⟨(C6_has_data_clearing sampleStateData sampleDesc rfl).1,
   (C6_has_data_clearing sampleStateData sampleDesc rfl).2
     { featureStream := true } [.opAm [1, 2] false]
     (by
       intro op hop
       rw [List.mem_singleton] at hop
       subst hop
       simp [opOK])
     sampleAmRunState engineRun_am_sample⟩

/-! ## Claim C1: byte conservation -/

/-- The entries the byte-conservation claim quantifies over: inbound
fragments delivered to the AM handler and receive operations
(`recv_nbx`, covering the inplace fast path and the posted-request drain
loop). -/
def c1op : EngineOp → Prop
  | .opAm payload _ => payload ≠ []
  | .opRecvNbx _ _ _ _ => True
  | _ => False

/-- Conservation invariant: along any run of AM deliveries and receives,
the bytes delivered to user buffers followed by the bytes still queued are
exactly the inbound bytes, in order. -/
theorem engineRun_c1_conservation (ctx : UcpContext) (ops : List EngineOp)
    (s : StreamState) (hwf : WF s)
    (hcons : s.delivered ++ qBytes s.matchQ = s.inbound)
    (hops : ∀ op ∈ ops, c1op op) :
    ∀ s2, engineRun ctx ops s = .ok s2 →
      WF s2 ∧ s2.delivered ++ qBytes s2.matchQ = s2.inbound := by
  induction ops generalizing s with
  | nil =>
      intro s2 h
      rw [engineRun] at h
      injection h with h'
      subst h'
      exact ⟨hwf, hcons⟩
  | cons op ops ih =>
      intro s2 h
      rw [engineRun] at h
      split at h
      · cases h
      · rename_i s1 hstep
        have hop := hops op (List.mem_cons_self _ _)
        have hrest := fun o ho => hops o (List.mem_cons_of_mem _ ho)
        rcases op with ⟨payload, flagDesc⟩ | ⟨count, len0, param, allocOk⟩ |
          L | d | _ | E
        · simp only [engineStep] at hstep
          split at hstep
          · cases hstep
          · rename_i st sA ham
            injection hstep with h'
            subst h'
            obtain ⟨pA, pB, pC, pD, pE, pF⟩ :=
              ucp_stream_am_handler_spec s payload flagDesc hwf hop _ _ ham
            refine ih sA pA ?_ hrest s2 h
            rw [pC, pB, hcons]
        · simp only [engineStep] at hstep
          split at hstep
          · cases hstep
          · rename_i ret len1 sA hnbx
            injection hstep with h'
            subst h'
            obtain ⟨jA, jB, jC, jD⟩ :=
              ucp_stream_recv_nbx_spec ctx s count len0 param allocOk hwf
                _ _ _ hnbx
            refine ih sA jA ?_ hrest s2 h
            rw [jB, jC, hcons]
        · cases hop
        · cases hop
        · cases hop
        · cases hop

/-- C1: from a fresh endpoint, after any sequence of inbound fragments and
receive operations that together consume all arrived bytes (`HAS_DATA`
clear at the end), the concatenation of the bytes unpacked into user
buffers equals the concatenation of the inbound fragment payloads, in
order. -/
theorem C1_byte_conservation (ctx : UcpContext) (ops : List EngineOp)
    (hops : ∀ op ∈ ops, c1op op) :
    ∀ s2, engineRun ctx ops (mkEp true) = .ok s2 →
      s2.hasData = false → s2.delivered = s2.inbound := by
  intro s2 h hd2
  obtain ⟨hwf2, hcons2⟩ := engineRun_c1_conservation ctx ops (mkEp true)
    (WF_empty _ rfl rfl) rfl hops s2 h
  have hb : qBytes s2.matchQ = [] := qBytes_allReq _ (hwf2.2.1 hd2)
  rw [hb, List.append_nil] at hcons2
  exact hcons2

/-- The receive parameters of the C1 witness: implicit byte datatype, no
flags. -/
def sampleC1Param : RequestParam :=
  { field_datatype := false, flag_no_imm_cmpl := false,
    flag_force_imm_cmpl := false, field_callback := false,
    datatype := .contig 1, flag_waitall := false, unpack_err := none }

/-- The residue descriptor of the C1 witness's 1-byte fragment. -/
def sampleC1Desc : Rdesc :=
  { length := 1, payload_offset := 56, flag_uct_desc := false,
    release_desc_offset := 0, payload := [7] }

/-- The intermediate state of the C1 witness run, after the fragment. -/
def sampleC1Mid : StreamState :=
  { matchQ := [.desc sampleC1Desc], hasData := true, isQueued := true,
    epUsed := true, nextId := 0, inbound := [7], delivered := [],
    released := [], completions := [] }

/-- The final state of the C1 witness run: the receive consumed the whole
fragment through the inplace fast path. -/
def sampleC1Final : StreamState :=
  { matchQ := [], hasData := false, isQueued := false, epUsed := true,
    nextId := 0, inbound := [7], delivered := [7],
    released := [sampleC1Desc], completions := [] }

/-- The C1 witness run, evaluated: one 1-byte fragment, then one receive
that consumes it in place. -/
theorem engineRun_c1_sample :
    engineRun { featureStream := true }
      [.opAm [7] false, .opRecvNbx 1 0 sampleC1Param true] (mkEp true) =
      .ok sampleC1Final := by
  have h1 : engineStep { featureStream := true } (.opAm [7] false)
      (mkEp true) = .ok sampleC1Mid := by
    simp only [engineStep, ucp_stream_am_handler, ucp_stream_am_data_process]
    rw [ucp_stream_am_match_loop]
    simp [mkEp, ucp_stream_ep_has_data, ucp_stream_ep_is_queued,
      ucp_stream_am_enqueue_residue, ucp_stream_ep_enqueue, sizeof_rdesc,
      sizeof_am_data, sampleC1Mid, sampleC1Desc]
  have h2 : engineStep { featureStream := true }
      (.opRecvNbx 1 0 sampleC1Param true) sampleC1Mid =
      .ok sampleC1Final := by
    decide
  simp only [engineRun, h1, h2]

/-- Witness for C1: the concrete two-operation run ends with `HAS_DATA`
clear and delivered bytes equal to inbound bytes. -/
theorem C1_byte_conservation_witness :
    engineRun { featureStream := true }
      [.opAm [7] false, .opRecvNbx 1 0 sampleC1Param true] (mkEp true) =
      .ok sampleC1Final ∧
    sampleC1Final.hasData = false ∧
    sampleC1Final.delivered = sampleC1Final.inbound :=
  ⟨engineRun_c1_sample, rfl,
   C1_byte_conservation { featureStream := true }
     [.opAm [7] false, .opRecvNbx 1 0 sampleC1Param true]
     (by
       intro op hop
       rcases List.mem_cons.mp hop with h | h
       · subst h
         simp [c1op]
       · rw [List.mem_singleton] at h
         subst h
         simp [c1op])
     sampleC1Final engineRun_c1_sample rfl⟩

end UcxStream
